import Mathlib

set_option autoImplicit false

/-!
Thread-safe containers of CS375Lab7.

Shallow embedding of `src/circular_buffer.cpp` (the bounded circular buffer and
the threads of its test), of the queue, the stack and the undo/redo editor of
`src/thread_safe_data_structures.cpp`, and of the list of
`src/thread_safe_linked_list.cpp`.

Modelling decisions for the circular buffer.

* The object state is the four data members `buffer`, `in`, `out`, `count`
  (`in` is a reserved word, so the field is called `in_`).  The three indices
  are C++ `int`s and are modelled as `Int`; `%` on `int` truncates towards
  zero, which is `Int.tmod`.
* `BUFFER_SIZE` is a preprocessor macro (5 in the source).  The operations take
  its value as the parameter `cap`, so that the general theorems hold for every
  positive capacity; the source's buffer is the instance `cap = BUFFER_SIZE`,
  and the scenarios are evaluated there.
* The mutex serialises every member function, so each completed call is one
  atomic transition of the state.  A call whose wait predicate is false has not
  completed: the transition function returns `none` there.
* `buffer` is a `List Int`; `buffer[i] = v` is `List.set`, `buffer[i]` is
  `List.getD`.  Indices outside the array (undefined behaviour in C++) do not
  occur in reachable states.
* For the claims about threads, `circularBufferTest` is a step relation over the
  buffer and the position of each of the four threads: a step is what one
  thread does while it holds the mutex, or one `notify_one` call, or a spurious
  wake-up.  Sleeps and output are left out.

The other containers wrap a `std::queue`, a `std::stack` or a chain of nodes
behind a mutex and never wait; they are modelled as lists and each member
function as one transition.
-/

/-- The macro `#define BUFFER_SIZE 5`. -/
def BUFFER_SIZE : Int := 5

/-- The data members of `class ThreadSafeCircularBuffer`
(`int buffer[BUFFER_SIZE]; int in = 0, out = 0, count = 0;`). -/
structure ThreadSafeCircularBuffer where
  buffer : List Int
  in_ : Int
  out : Int
  count : Int
deriving DecidableEq, Repr

namespace ThreadSafeCircularBuffer

/-- The freshly constructed object.  The class declares no constructor: the
default member initialisers set `in = out = count = 0` and the array keeps
whatever it held, here `slots`. -/
def fresh (slots : List Int) : ThreadSafeCircularBuffer :=
  { buffer := slots, in_ := 0, out := 0, count := 0 }

/-- `void push(int value)`: completes only when `count < BUFFER_SIZE`. -/
def push (cap : Int) (s : ThreadSafeCircularBuffer) (value : Int) :
    Option ThreadSafeCircularBuffer :=
  if s.count < cap then
    some { buffer := s.buffer.set s.in_.toNat value
           in_ := Int.tmod (s.in_ + 1) cap
           out := s.out
           count := s.count + 1 }
  else none

/-- `bool pop(int& value)`: completes only when `count > 0`; the result is the
returned `bool`, the value stored through the reference, and the new state. -/
def pop (cap : Int) (s : ThreadSafeCircularBuffer) :
    Option (Bool × Int × ThreadSafeCircularBuffer) :=
  if s.count > 0 then
    some (true, s.buffer.getD s.out.toNat 0,
          { buffer := s.buffer
            in_ := s.in_
            out := Int.tmod (s.out + 1) cap
            count := s.count - 1 })
  else none

/-- `bool empty()`. -/
def empty (s : ThreadSafeCircularBuffer) : Bool := s.count == 0

/-- `bool full()`. -/
def full (cap : Int) (s : ThreadSafeCircularBuffer) : Bool := s.count == cap

end ThreadSafeCircularBuffer

open ThreadSafeCircularBuffer

/-- A call on the buffer. -/
inductive Op where
  | push (value : Int)
  | pop
deriving DecidableEq, Repr

/-- One completed call: the new state and the values it delivered to the
caller (none for `push`, the popped value for `pop`). -/
def step (cap : Int) (s : ThreadSafeCircularBuffer) :
    Op → Option (ThreadSafeCircularBuffer × List Int)
  | .push v => (push cap s v).map (fun s1 => (s1, []))
  | .pop => (pop cap s).map (fun r => (r.2.2, [r.2.1]))

/-- A finite sequence of completed calls, in the order in which they held the
mutex; `none` as soon as one of them cannot complete. The second component
lists the popped values, oldest first. -/
def run (cap : Int) :
    ThreadSafeCircularBuffer → List Op → Option (ThreadSafeCircularBuffer × List Int)
  | s, [] => some (s, [])
  | s, op :: ops =>
    match step cap s op with
    | none => none
    | some (s1, o1) =>
      match run cap s1 ops with
      | none => none
      | some (s2, o2) => some (s2, o1 ++ o2)

/-- The values passed to the pushes of a call sequence, in order. -/
def pushed : List Op → List Int
  | [] => []
  | .push v :: ops => v :: pushed ops
  | .pop :: ops => pushed ops

/-- The number of pops in a call sequence. -/
def popCount : List Op → Nat
  | [] => 0
  | .push _ :: ops => popCount ops
  | .pop :: ops => popCount ops + 1

/-- The values read by `n` successive pops starting at index `out`: the slots
from `out` on in ring order. -/
def ringFrom (cap : Int) (buffer : List Int) : Int → Nat → List Int
  | _, 0 => []
  | out, n + 1 => buffer.getD out.toNat 0 :: ringFrom cap buffer (Int.tmod (out + 1) cap) n

/-- The values held in the buffer: `count` slots from `out` on, in ring order. -/
def contents (cap : Int) (s : ThreadSafeCircularBuffer) : List Int :=
  ringFrom cap s.buffer s.out s.count.toNat

/-- The state invariant of the ring: `cap` slots, both indices inside the
array, the occupancy between 0 and `cap`, and `in` exactly `count` slots ahead
of `out`. -/
structure Wf (cap : Int) (s : ThreadSafeCircularBuffer) : Prop where
  cap_pos : 0 < cap
  len : (s.buffer.length : Int) = cap
  in_lo : 0 ≤ s.in_
  in_hi : s.in_ < cap
  out_lo : 0 ≤ s.out
  out_hi : s.out < cap
  count_lo : 0 ≤ s.count
  count_hi : s.count ≤ cap
  ring : s.in_ = (s.out + s.count) % cap

/-- The unbounded list queue the ring is compared with: push appends at the
back. -/
def listQueuePush (q : List Int) (v : Int) : List Int := q ++ [v]

/-- The list queue: pop removes from the front, and is not possible on the
empty queue. -/
def listQueuePop : List Int → Option (Int × List Int)
  | [] => none
  | x :: q => some (x, q)

/-- A call sequence on the list queue, with the popped values. -/
def listQueueRun : List Int → List Op → Option (List Int × List Int)
  | q, [] => some (q, [])
  | q, .push v :: ops => listQueueRun (listQueuePush q v) ops
  | q, .pop :: ops =>
    match listQueuePop q with
    | none => none
    | some (x, q1) =>
      match listQueueRun q1 ops with
      | none => none
      | some (q2, o2) => some (q2, x :: o2)

/-- The public member functions that `class ThreadSafeCircularBuffer` declares
(the class has no constructor and no destructor of its own). -/
def ThreadSafeCircularBuffer.publicMembers : List String :=
  ["push", "pop", "empty", "full"]

/-! ## The non-blocking containers of `src/thread_safe_data_structures.cpp` -/

/-- The data member of `class ThreadSafeQueue<T>`: the `std::queue<T>`, as the
list of its elements from the front to the back. -/
structure ThreadSafeQueue (α : Type) where
  queue : List α
deriving DecidableEq, Repr

namespace ThreadSafeQueue

/-- `void push(T value)`: `queue.push(value)` appends at the back. -/
def push {α : Type} (q : ThreadSafeQueue α) (value : α) : ThreadSafeQueue α :=
  { queue := q.queue ++ [value] }

/-- `bool pop(T& value)`: the returned `bool`, the caller's variable after the
call (`value` is its content before the call) and the new state. -/
def pop {α : Type} (q : ThreadSafeQueue α) (value : α) : Bool × α × ThreadSafeQueue α :=
  match q.queue with
  | [] => (false, value, q)
  | x :: rest => (true, x, { queue := rest })

/-- `bool empty()`. -/
def empty {α : Type} (q : ThreadSafeQueue α) : Bool := q.queue.isEmpty

/-- `size_t size()`. -/
def size {α : Type} (q : ThreadSafeQueue α) : Nat := q.queue.length

end ThreadSafeQueue

/-- The data member of `class ThreadSafeStack<T>`: the `std::stack<T>`, as the
list of its elements from the top down. -/
structure ThreadSafeStack (α : Type) where
  stack : List α
deriving DecidableEq, Repr

namespace ThreadSafeStack

/-- `void push(T value)`: `stack.push(value)` puts the value on top. -/
def push {α : Type} (s : ThreadSafeStack α) (value : α) : ThreadSafeStack α :=
  { stack := value :: s.stack }

/-- `bool pop(T& value)`: the returned `bool`, the caller's variable after the
call (`value` is its content before the call) and the new state. -/
def pop {α : Type} (s : ThreadSafeStack α) (value : α) : Bool × α × ThreadSafeStack α :=
  match s.stack with
  | [] => (false, value, s)
  | x :: rest => (true, x, { stack := rest })

/-- `bool empty()`. -/
def empty {α : Type} (s : ThreadSafeStack α) : Bool := s.stack.isEmpty

/-- `size_t size()`. -/
def size {α : Type} (s : ThreadSafeStack α) : Nat := s.stack.length

end ThreadSafeStack

/-! ## `undoRedoProblem` -/

namespace undoRedoProblem

/-- The locals of `undoRedoProblem` that its three lambdas capture. -/
structure State where
  undoStack : ThreadSafeStack String
  redoStack : ThreadSafeStack String
  currentText : String
deriving DecidableEq, Repr

/-- The locals as declared: two empty stacks and `currentText = ""`. -/
def init : State :=
  { undoStack := { stack := [] }, redoStack := { stack := [] }, currentText := "" }

/-- The loop `while (redoStack.pop(temp)) {}` of `editText`: the stack and
`temp` when the loop is left. -/
def clearRedo (redoStack : ThreadSafeStack String) (temp : String) :
    ThreadSafeStack String × String :=
  if _h : (redoStack.pop temp).1 = true then
    clearRedo (redoStack.pop temp).2.2 (redoStack.pop temp).2.1
  else ((redoStack.pop temp).2.2, (redoStack.pop temp).2.1)
termination_by redoStack.stack.length
decreasing_by
  all_goals
    cases hs : redoStack.stack with
    | nil => simp [ThreadSafeStack.pop, hs] at _h
    | cons x rest => simp [ThreadSafeStack.pop, hs]

/-- The lambda `editText`. -/
def editText (e : State) (newText : String) : State :=
  { undoStack := e.undoStack.push e.currentText
    redoStack := (clearRedo e.redoStack "").1
    currentText := newText }

/-- The lambda `undo`. -/
def undo (e : State) : State :=
  match e.undoStack.pop "" with
  | (true, prevText, undo1) =>
    { undoStack := undo1, redoStack := e.redoStack.push e.currentText, currentText := prevText }
  | (false, _, _) => e

/-- The lambda `redo`. -/
def redo (e : State) : State :=
  match e.redoStack.pop "" with
  | (true, nextText, redo1) =>
    { undoStack := e.undoStack.push e.currentText, redoStack := redo1, currentText := nextText }
  | (false, _, _) => e

end undoRedoProblem

/-! ## The linked list of `src/thread_safe_linked_list.cpp` -/

/-- A `Node*`: the null pointer, or a pointer to a node with its `data` and its
`next` pointer. -/
inductive NodePtr (α : Type) where
  | nullptr
  | node (data : α) (next : NodePtr α)
deriving DecidableEq, Repr

/-- The elements of a chain of nodes, first node first. -/
def NodePtr.elements {α : Type} : NodePtr α → List α
  | .nullptr => []
  | .node data next => data :: next.elements

/-- The data member `Node* head` of `class ThreadSafeLinkedList<T>`. -/
structure ThreadSafeLinkedList (α : Type) where
  head : NodePtr α
deriving DecidableEq, Repr

namespace ThreadSafeLinkedList

/-- `void push_front(T value)`. -/
def push_front {α : Type} (l : ThreadSafeLinkedList α) (value : α) : ThreadSafeLinkedList α :=
  { head := .node value l.head }

/-- `bool pop_front(T& value)`: the returned `bool`, the caller's variable after
the call and the new state. -/
def pop_front {α : Type} (l : ThreadSafeLinkedList α) (value : α) :
    Bool × α × ThreadSafeLinkedList α :=
  match l.head with
  | .nullptr => (false, value, l)
  | .node data next => (true, data, { head := next })

/-- `bool empty()`: `head == nullptr`. -/
def empty {α : Type} (l : ThreadSafeLinkedList α) : Bool :=
  match l.head with
  | .nullptr => true
  | .node _ _ => false

/-- The loop of `size()`: `while (current) { count++; current = current->next; }`. -/
def sizeLoop {α : Type} : NodePtr α → Nat → Nat
  | .nullptr, count => count
  | .node _ next, count => sizeLoop next (count + 1)

/-- `size_t size()`. -/
def size {α : Type} (l : ThreadSafeLinkedList α) : Nat := sizeLoop l.head 0

/-- The destructor's loop `while (!empty()) { T value; pop_front(value); }`, with
`value0` the content of a fresh `T value`: the number of iterations made and the
state when the loop is left. -/
def destructorLoop {α : Type} (l : ThreadSafeLinkedList α) (value0 : α) :
    Nat × ThreadSafeLinkedList α :=
  if h : l.empty = false then
    ((destructorLoop (l.pop_front value0).2.2 value0).1 + 1,
     (destructorLoop (l.pop_front value0).2.2 value0).2)
  else (0, l)
termination_by l.head.elements.length
decreasing_by
  all_goals
    unfold empty at h
    unfold pop_front
    split at h
    · simp at h
    · next d nx hx =>
      rw [hx]
      simp [NodePtr.elements]

end ThreadSafeLinkedList

/-! ## The threads of `circularBufferTest` -/

/-- `const int NUM_ITEMS = 10`: the calls each producer and each consumer makes. -/
def NUM_ITEMS : Nat := 10

/-- The two condition variables of the buffer. -/
inductive Cond where
  | not_full
  | not_empty
deriving DecidableEq, Repr

/-- Where a producer or consumer thread is in its loop.

* `ready k`: `k` iterations are still to be made; with `k > 0` the thread is
  about to lock the mutex and evaluate the wait predicate of its next call
  (for the first time, or again after it was woken); `ready 0` is a thread that
  has left its loop.
* `waiting k`: the thread is blocked inside `wait` in its current call, having
  released the mutex; `k` iterations follow the current one.
* `notifying k`: the thread has updated the buffer and released the mutex, and
  is about to call `notify_one`; `k` iterations follow the current one. -/
inductive Pc where
  | ready (k : Nat)
  | waiting (k : Nat)
  | notifying (k : Nat)
deriving DecidableEq, Repr

namespace Pc

/-- The calls the thread has not completed on the buffer yet. -/
def rem : Pc → Nat
  | ready k => k
  | waiting k => k + 1
  | notifying k => k

/-- 1 for a thread about to lock the mutex for a call, 0 otherwise. -/
def readyNum : Pc → Nat
  | ready (_ + 1) => 1
  | _ => 0

/-- 1 for a thread blocked in `wait`, 0 otherwise. -/
def waitingNum : Pc → Nat
  | waiting _ => 1
  | _ => 0

/-- 1 for a thread about to call `notify_one`, 0 otherwise. -/
def notifyingNum : Pc → Nat
  | notifying _ => 1
  | _ => 0

/-- The variant: it falls with every step a thread takes by itself and rises by
one when the thread is woken. -/
def variant : Pc → Nat
  | ready k => 3 * k
  | waiting k => 3 * k + 2
  | notifying k => 3 * k + 2

end Pc

namespace circularBufferTest

/-- The shared buffer `cb`, the two producer and the two consumer threads
(`NUM_PRODUCERS = 2`, `NUM_CONSUMERS = 2`), and the values the consumers have
received so far. -/
structure State where
  cb : ThreadSafeCircularBuffer
  producer0 : Pc
  producer1 : Pc
  consumer0 : Pc
  consumer1 : Pc
  consumed : List Int
deriving DecidableEq, Repr

/-- The state when the four threads have been created: a fresh buffer and
`NUM_ITEMS` iterations ahead of every thread. -/
def init (slots : List Int) : State :=
  { cb := fresh slots
    producer0 := .ready NUM_ITEMS
    producer1 := .ready NUM_ITEMS
    consumer0 := .ready NUM_ITEMS
    consumer1 := .ready NUM_ITEMS
    consumed := [] }

/-- Producer number `i` (`false` is 0, `true` is 1). -/
def State.producer (σ : State) (i : Bool) : Pc := if i then σ.producer1 else σ.producer0

/-- Consumer number `i`. -/
def State.consumer (σ : State) (i : Bool) : Pc := if i then σ.consumer1 else σ.consumer0

/-- Move producer number `i`. -/
def State.setProducer (σ : State) (i : Bool) (pc : Pc) : State :=
  if i then { σ with producer1 := pc } else { σ with producer0 := pc }

/-- Move consumer number `i`. -/
def State.setConsumer (σ : State) (i : Bool) (pc : Pc) : State :=
  if i then { σ with consumer1 := pc } else { σ with consumer0 := pc }

/-- The steps of the four threads.  Everything a thread does between locking
the mutex and releasing it (by `unlock` or inside `wait`) is one step.

* `producerEnter i value`: producer `i` locks the mutex in `push(value)` and
  evaluates `count < BUFFER_SIZE`; it updates the buffer and unlocks, or blocks
  in `not_full.wait`.
* `producerNotify i woken`: producer `i` calls `not_empty.notify_one()`, which
  releases the waiting consumer `woken`, or nobody when no consumer waits.
* `consumerEnter i`: consumer `i` locks the mutex in `pop` and evaluates
  `count > 0`; it updates the buffer and unlocks, or blocks in `not_empty.wait`.
* `consumerNotify i woken`: consumer `i` calls `not_full.notify_one()`.
* `producerSpurious i`, `consumerSpurious i`: a blocked thread wakes up without
  a notification. -/
inductive Act where
  | producerEnter (i : Bool) (value : Int)
  | producerNotify (i : Bool) (woken : Option Bool)
  | consumerEnter (i : Bool)
  | consumerNotify (i : Bool) (woken : Option Bool)
  | producerSpurious (i : Bool)
  | consumerSpurious (i : Bool)
deriving DecidableEq, Repr

/-- The steps other than spurious wake-ups. -/
def Act.proper : Act → Bool
  | .producerSpurious _ => false
  | .consumerSpurious _ => false
  | _ => true

/-- The `notify_one` calls a step makes, by condition variable. -/
def Act.signals : Act → List Cond
  | .producerNotify _ _ => [.not_empty]
  | .consumerNotify _ _ => [.not_full]
  | _ => []

/-- One step of one thread; `none` when the thread is not at that step. -/
def step (cap : Int) (σ : State) : Act → Option State
  | .producerEnter i value =>
    match σ.producer i with
    | .ready (k + 1) =>
      match push cap σ.cb value with
      | some cb1 => some ({ σ with cb := cb1 }.setProducer i (.notifying k))
      | none => some (σ.setProducer i (.waiting k))
    | _ => none
  | .producerNotify i woken =>
    match σ.producer i with
    | .notifying k =>
      match woken with
      | some j =>
        match σ.consumer j with
        | .waiting m => some ((σ.setProducer i (.ready k)).setConsumer j (.ready (m + 1)))
        | _ => none
      | none =>
        if σ.consumer0.waitingNum + σ.consumer1.waitingNum = 0 then
          some (σ.setProducer i (.ready k))
        else none
    | _ => none
  | .consumerEnter i =>
    match σ.consumer i with
    | .ready (k + 1) =>
      match pop cap σ.cb with
      | some (_, value, cb1) =>
        some ({ σ with cb := cb1, consumed := σ.consumed ++ [value] }.setConsumer i
          (.notifying k))
      | none => some (σ.setConsumer i (.waiting k))
    | _ => none
  | .consumerNotify i woken =>
    match σ.consumer i with
    | .notifying k =>
      match woken with
      | some j =>
        match σ.producer j with
        | .waiting m => some ((σ.setConsumer i (.ready k)).setProducer j (.ready (m + 1)))
        | _ => none
      | none =>
        if σ.producer0.waitingNum + σ.producer1.waitingNum = 0 then
          some (σ.setConsumer i (.ready k))
        else none
    | _ => none
  | .producerSpurious i =>
    match σ.producer i with
    | .waiting m => some (σ.setProducer i (.ready (m + 1)))
    | _ => none
  | .consumerSpurious i =>
    match σ.consumer i with
    | .waiting m => some (σ.setConsumer i (.ready (m + 1)))
    | _ => none

/-- An interleaving: the steps taken one after the other. -/
def exec (cap : Int) : State → List Act → Option State
  | σ, [] => some σ
  | σ, a :: acts =>
    match step cap σ a with
    | none => none
    | some σ1 => exec cap σ1 acts

/-- The calls the producers have not completed yet. -/
def State.remP (σ : State) : Nat := σ.producer0.rem + σ.producer1.rem

/-- The calls the consumers have not completed yet. -/
def State.remC (σ : State) : Nat := σ.consumer0.rem + σ.consumer1.rem

/-- Every thread has left its loop. -/
def State.finished (σ : State) : Bool :=
  σ.producer0 == .ready 0 && σ.producer1 == .ready 0
    && σ.consumer0 == .ready 0 && σ.consumer1 == .ready 0

/-- The variant of the whole system. -/
def State.variant (σ : State) : Nat :=
  σ.producer0.variant + σ.producer1.variant + σ.consumer0.variant + σ.consumer1.variant

/-- The number of proper steps of an interleaving. -/
def properCount (acts : List Act) : Nat := (acts.filter Act.proper).length

/-- The number of spurious wake-ups of an interleaving. -/
def spuriousCount (acts : List Act) : Nat := (acts.filter (fun a => !a.proper)).length

/-- The `notify_one` calls an interleaving makes on condition variable `c`. -/
def signalCount (c : Cond) : List Act → Nat
  | [] => 0
  | a :: acts => a.signals.count c + signalCount c acts

/-- The pushes completed along an interleaving: the `producerEnter` steps that
found `count < BUFFER_SIZE` and updated the buffer. -/
def pushesCompleted (cap : Int) : State → List Act → Nat
  | _, [] => 0
  | σ, a :: acts =>
    match step cap σ a with
    | none => 0
    | some σ1 =>
      (match a with
        | .producerEnter _ value => if (push cap σ.cb value).isSome then 1 else 0
        | _ => 0) + pushesCompleted cap σ1 acts

/-- The pops completed along an interleaving: the `consumerEnter` steps that
found `count > 0` and updated the buffer. -/
def popsCompleted (cap : Int) : State → List Act → Nat
  | _, [] => 0
  | σ, a :: acts =>
    match step cap σ a with
    | none => 0
    | some σ1 =>
      (match a with
        | .consumerEnter _ => if (pop cap σ.cb).isSome then 1 else 0
        | _ => 0) + popsCompleted cap σ1 acts

/-- An interleaving of the whole test in which both consumers block on the empty
buffer, one of them wakes up spuriously, and the producers block on the full
buffer again and again. -/
def loadSchedule : List Act :=
  [Act.consumerEnter false, Act.consumerEnter true]
    ++ [Act.consumerSpurious true, Act.consumerEnter true]
    ++ [Act.producerEnter true 200, Act.producerEnter false 100]
    ++ [Act.producerNotify false (some true), Act.producerEnter false 101]
    ++ [Act.producerNotify false (some false), Act.producerEnter false 102]
    ++ [Act.producerNotify false none, Act.consumerEnter true]
    ++ [Act.producerEnter false 103, Act.producerNotify false none]
    ++ [Act.producerEnter false 104, Act.producerNotify false none]
    ++ [Act.producerEnter false 105, Act.producerNotify true none]
    ++ [Act.consumerNotify true (some false), Act.producerEnter false 105]
    ++ [Act.producerEnter true 201, Act.consumerEnter false]
    ++ [Act.consumerNotify false (some true), Act.producerEnter true 201]
    ++ [Act.producerNotify true none, Act.consumerEnter true]
    ++ [Act.producerEnter true 202, Act.producerNotify true none]
    ++ [Act.producerEnter true 203, Act.consumerEnter false]
    ++ [Act.consumerNotify false (some true), Act.producerEnter true 203]
    ++ [Act.consumerNotify true (some false), Act.producerEnter false 105]
    ++ [Act.producerNotify true none, Act.producerEnter true 204]
    ++ [Act.consumerEnter false, Act.consumerNotify false (some true)]
    ++ [Act.producerEnter true 204, Act.consumerEnter true]
    ++ [Act.producerNotify true none, Act.producerEnter true 205]
    ++ [Act.producerNotify true none, Act.producerEnter true 206]
    ++ [Act.consumerEnter false, Act.consumerNotify false (some true)]
    ++ [Act.consumerNotify true (some false), Act.producerEnter false 105]
    ++ [Act.producerNotify false none, Act.producerEnter false 106]
    ++ [Act.producerEnter true 206, Act.consumerEnter false]
    ++ [Act.consumerNotify false (some true), Act.consumerEnter true]
    ++ [Act.producerEnter true 206, Act.producerNotify true none]
    ++ [Act.producerEnter true 207, Act.producerNotify true none]
    ++ [Act.producerEnter true 208, Act.consumerEnter false]
    ++ [Act.consumerNotify true (some true), Act.producerEnter true 208]
    ++ [Act.producerNotify true none, Act.producerEnter true 209]
    ++ [Act.consumerNotify false (some true), Act.producerEnter true 209]
    ++ [Act.consumerEnter false, Act.consumerEnter true]
    ++ [Act.consumerNotify false (some true), Act.producerEnter true 209]
    ++ [Act.producerNotify true none, Act.consumerEnter false]
    ++ [Act.consumerNotify false (some false), Act.producerEnter false 106]
    ++ [Act.consumerNotify true none, Act.producerNotify false none]
    ++ [Act.producerEnter false 107, Act.producerNotify false none]
    ++ [Act.producerEnter false 108, Act.consumerEnter false]
    ++ [Act.consumerNotify false (some false), Act.consumerEnter true]
    ++ [Act.producerEnter false 108, Act.producerNotify false none]
    ++ [Act.producerEnter false 109, Act.producerNotify false none]
    ++ [Act.consumerEnter false, Act.consumerNotify false none]
    ++ [Act.consumerNotify true none, Act.consumerEnter true]
    ++ [Act.consumerNotify true none, Act.consumerEnter true]
    ++ [Act.consumerNotify true none, Act.consumerEnter true]
    ++ [Act.consumerNotify true none, Act.consumerEnter true]
    ++ [Act.consumerNotify true none]

/-- The invariant of the four threads: the ring is well formed; the occupancy
is the completed pushes minus the completed pops; the consumers have received
one value per completed pop; and whenever a consumer is blocked, every value
held is matched by a producer about to notify or by a consumer about to look,
likewise every free slot whenever a producer is blocked. -/
structure Inv (cap : Int) (σ : State) : Prop where
  wf : Wf cap σ.cb
  balance : σ.cb.count + (σ.remP : Int) = (σ.remC : Int)
  received : σ.consumed.length + σ.remC = 2 * NUM_ITEMS
  items : σ.consumer0.waitingNum + σ.consumer1.waitingNum = 0
    ∨ σ.cb.count ≤ ((σ.producer0.notifyingNum + σ.producer1.notifyingNum
        + σ.consumer0.readyNum + σ.consumer1.readyNum : Nat) : Int)
  space : σ.producer0.waitingNum + σ.producer1.waitingNum = 0
    ∨ cap - σ.cb.count ≤ ((σ.consumer0.notifyingNum + σ.consumer1.notifyingNum
        + σ.producer0.readyNum + σ.producer1.readyNum : Nat) : Int)

end circularBufferTest

/-! ## Index arithmetic -/

theorem emod_wrap (x cap : Int) (h0 : 0 ≤ x) (h1 : x < 2 * cap) :
    x % cap = if x < cap then x else x - cap := by
  split
  · next h => exact Int.emod_eq_of_lt h0 h
  · next h =>
    have h2 : x % cap = (x - cap) % cap := by
      rw [Int.sub_emod, Int.emod_self, Int.sub_zero, Int.emod_emod]
    rw [h2]
    exact Int.emod_eq_of_lt (by omega) (by omega)

theorem tmod_succ (x cap : Int) (h0 : 0 ≤ x) (h1 : x < cap) :
    Int.tmod (x + 1) cap = (x + 1) % cap :=
  Int.tmod_eq_emod (by omega) (by omega)

theorem succ_emod_range (x cap : Int) (h0 : 0 ≤ x) (h1 : x < cap) :
    0 ≤ (x + 1) % cap ∧ (x + 1) % cap < cap := by
  rw [emod_wrap (x + 1) cap (by omega) (by omega)]
  split <;> omega

/-! ## The ring as a list -/

theorem ringFrom_set (cap : Int) (v : Int) (n : Nat) :
    ∀ (buf : List Int) (out : Int), (buf.length : Int) = cap → 0 ≤ out → out < cap →
      (n : Int) < cap →
      ringFrom cap (buf.set ((out + n) % cap).toNat v) out (n + 1)
        = ringFrom cap buf out n ++ [v] := by
  induction n with
  | zero =>
    intro buf out hlen h0 h1 _
    have hidx : (out + ((0 : Nat) : Int)) % cap = out := by
      simpa using Int.emod_eq_of_lt h0 h1
    have hlt : out.toNat < buf.length := by omega
    rw [hidx]
    simp [ringFrom, List.getD_eq_getElem?_getD, List.getElem?_set_self, hlt]
  | succ n ih =>
    intro buf out hlen h0 h1 hn
    have hr := succ_emod_range out cap h0 h1
    have hidx : (Int.tmod (out + 1) cap + (n : Int)) % cap
        = (out + ((n + 1 : Nat) : Int)) % cap := by
      rw [tmod_succ out cap h0 h1, Int.emod_add_emod]
      congr 1
      push_cast
      omega
    have hne : ((out + ((n + 1 : Nat) : Int)) % cap).toNat ≠ out.toNat := by
      rw [emod_wrap _ cap (by omega) (by push_cast; omega)]
      push_cast
      split <;> omega
    have hget : (buf.set ((out + ((n + 1 : Nat) : Int)) % cap).toNat v).getD out.toNat 0
        = buf.getD out.toNat 0 := by
      simp only [List.getD_eq_getElem?_getD, List.getElem?_set_ne hne]
    have key := ih buf (Int.tmod (out + 1) cap) hlen
      (by rw [tmod_succ out cap h0 h1]; exact hr.1)
      (by rw [tmod_succ out cap h0 h1]; exact hr.2) (by omega)
    rw [hidx] at key
    show (buf.set _ v).getD out.toNat 0 :: ringFrom cap _ _ (n + 1) = _
    rw [key, hget]
    rfl

theorem wf_fresh (cap : Int) (slots : List Int) (hcap : 0 < cap)
    (hlen : (slots.length : Int) = cap) : Wf cap (fresh slots) where
  cap_pos := hcap
  len := hlen
  in_lo := by simp [ThreadSafeCircularBuffer.fresh]
  in_hi := by simpa [ThreadSafeCircularBuffer.fresh] using hcap
  out_lo := by simp [ThreadSafeCircularBuffer.fresh]
  out_hi := by simpa [ThreadSafeCircularBuffer.fresh] using hcap
  count_lo := by simp [ThreadSafeCircularBuffer.fresh]
  count_hi := by simpa [ThreadSafeCircularBuffer.fresh] using Int.le_of_lt hcap
  ring := by simp [ThreadSafeCircularBuffer.fresh]

theorem contents_fresh (cap : Int) (slots : List Int) : contents cap (fresh slots) = [] := by
  simp [contents, ThreadSafeCircularBuffer.fresh, ringFrom]

/-- A push on a well-formed, not full ring completes, keeps the invariant and
appends the value to the contents. -/
theorem push_wf (cap : Int) (s : ThreadSafeCircularBuffer) (v : Int) (hw : Wf cap s)
    (hc : s.count < cap) :
    ∃ s1, push cap s v = some s1 ∧ Wf cap s1 ∧ contents cap s1 = contents cap s ++ [v]
      ∧ s1.count = s.count + 1 := by
  obtain ⟨hcap, hlen, hi0, hi1, ho0, ho1, hc0, hc1, hring⟩ := hw
  have hr := succ_emod_range s.in_ cap hi0 hi1
  refine ⟨{ buffer := s.buffer.set s.in_.toNat v, in_ := Int.tmod (s.in_ + 1) cap,
             out := s.out, count := s.count + 1 }, by simp [push, hc], ?_, ?_, rfl⟩
  · refine ⟨hcap, by simpa using hlen, ?_, ?_, ho0, ho1, ?_, ?_, ?_⟩
    · show 0 ≤ Int.tmod (s.in_ + 1) cap
      rw [tmod_succ _ _ hi0 hi1]; exact hr.1
    · show Int.tmod (s.in_ + 1) cap < cap
      rw [tmod_succ _ _ hi0 hi1]; exact hr.2
    · show 0 ≤ s.count + 1
      omega
    · show s.count + 1 ≤ cap
      omega
    · show Int.tmod (s.in_ + 1) cap = (s.out + (s.count + 1)) % cap
      rw [tmod_succ _ _ hi0 hi1, hring, Int.emod_add_emod, Int.add_assoc]
  · show ringFrom cap (s.buffer.set s.in_.toNat v) s.out (s.count + 1).toNat = _
    have hn : (s.count + 1).toNat = s.count.toNat + 1 := by omega
    have hcast : ((s.count.toNat : Nat) : Int) = s.count := by omega
    have := ringFrom_set cap v s.count.toNat s.buffer s.out hlen ho0 ho1 (by omega)
    rw [hcast, ← hring] at this
    rw [hn, this]
    rfl

/-- A pop on a well-formed, non-empty ring completes with result `true`, keeps
the invariant and removes the first value of the contents. -/
theorem pop_wf (cap : Int) (s : ThreadSafeCircularBuffer) (hw : Wf cap s)
    (hc : 0 < s.count) :
    ∃ x s1, pop cap s = some (true, x, s1) ∧ Wf cap s1 ∧ contents cap s = x :: contents cap s1
      ∧ s1.count = s.count - 1 := by
  obtain ⟨hcap, hlen, hi0, hi1, ho0, ho1, hc0, hc1, hring⟩ := hw
  have hr := succ_emod_range s.out cap ho0 ho1
  refine ⟨s.buffer.getD s.out.toNat 0,
    { buffer := s.buffer, in_ := s.in_, out := Int.tmod (s.out + 1) cap,
      count := s.count - 1 }, by simp [pop, hc], ?_, ?_, rfl⟩
  · refine ⟨hcap, hlen, hi0, hi1, ?_, ?_, ?_, ?_, ?_⟩
    · show 0 ≤ Int.tmod (s.out + 1) cap
      rw [tmod_succ _ _ ho0 ho1]; exact hr.1
    · show Int.tmod (s.out + 1) cap < cap
      rw [tmod_succ _ _ ho0 ho1]; exact hr.2
    · show 0 ≤ s.count - 1
      omega
    · show s.count - 1 ≤ cap
      omega
    · show s.in_ = (Int.tmod (s.out + 1) cap + (s.count - 1)) % cap
      rw [tmod_succ _ _ ho0 ho1, hring, Int.emod_add_emod]
      congr 1
      omega
  · have hn : s.count.toNat = (s.count - 1).toNat + 1 := by omega
    show ringFrom cap s.buffer s.out s.count.toNat = _
    rw [hn]
    rfl

/-! ## Call sequences -/

theorem push_some (cap : Int) (s s1 : ThreadSafeCircularBuffer) (v : Int)
    (h : push cap s v = some s1) : s.count < cap := by
  unfold push at h
  split at h
  · assumption
  · exact absurd h (by simp)

theorem pop_some (cap : Int) (s : ThreadSafeCircularBuffer)
    (r : Bool × Int × ThreadSafeCircularBuffer) (h : pop cap s = some r) : 0 < s.count := by
  unfold pop at h
  split at h
  · assumption
  · exact absurd h (by simp)

theorem run_push (cap : Int) (s s2 : ThreadSafeCircularBuffer) (v : Int) (ops : List Op)
    (outs : List Int) (h : run cap s (.push v :: ops) = some (s2, outs)) :
    ∃ s1, push cap s v = some s1 ∧ run cap s1 ops = some (s2, outs) := by
  simp only [run, step] at h
  cases hp : push cap s v with
  | none => simp [hp] at h
  | some s1 =>
    refine ⟨s1, rfl, ?_⟩
    simp only [hp, Option.map_some'] at h
    cases hr : run cap s1 ops with
    | none => simp [hr] at h
    | some p =>
      obtain ⟨s3, o3⟩ := p
      simp only [hr, List.nil_append] at h
      exact h

theorem run_pop (cap : Int) (s s2 : ThreadSafeCircularBuffer) (ops : List Op)
    (outs : List Int) (h : run cap s (.pop :: ops) = some (s2, outs)) :
    ∃ b x s1 o, pop cap s = some (b, x, s1) ∧ run cap s1 ops = some (s2, o)
      ∧ outs = x :: o := by
  simp only [run, step] at h
  cases hp : pop cap s with
  | none => simp [hp] at h
  | some r =>
    obtain ⟨b, x, s1⟩ := r
    simp only [hp, Option.map_some'] at h
    cases hr : run cap s1 ops with
    | none => simp [hr] at h
    | some p =>
      obtain ⟨s3, o3⟩ := p
      simp only [hr, Option.some.injEq, Prod.mk.injEq] at h
      refine ⟨b, x, s1, o3, rfl, ?_, ?_⟩
      · rw [hr, h.1]
      · rw [← h.2]; rfl

/-- Every completed call sequence from a well-formed ring keeps the invariant,
and is a call sequence of the list queue on the contents, with the same popped
values. -/
theorem run_wf (cap : Int) (ops : List Op) :
    ∀ (s s2 : ThreadSafeCircularBuffer) (outs : List Int), Wf cap s →
      run cap s ops = some (s2, outs) →
      Wf cap s2
        ∧ contents cap s ++ pushed ops = outs ++ contents cap s2
        ∧ outs.length = popCount ops
        ∧ s2.count = s.count + (pushed ops).length - popCount ops
        ∧ listQueueRun (contents cap s) ops = some (contents cap s2, outs) := by
  induction ops with
  | nil =>
    intro s s2 outs hw h
    simp only [run, Option.some.injEq, Prod.mk.injEq] at h
    obtain ⟨rfl, rfl⟩ := h
    simp [hw, pushed, popCount, listQueueRun]
  | cons op ops ih =>
    intro s s2 outs hw h
    cases op with
    | push v =>
      obtain ⟨s1, hp, hr⟩ := run_push cap s s2 v ops outs h
      obtain ⟨s1b, hp1, hw1, hc1, hn1⟩ := push_wf cap s v hw (push_some cap s s1 v hp)
      rw [hp] at hp1
      cases hp1
      obtain ⟨hw2, hcons, hlen, hcount, hq⟩ := ih s1 s2 outs hw1 hr
      refine ⟨hw2, ?_, by simpa [popCount] using hlen, ?_, ?_⟩
      · rw [← hcons, hc1]; simp [pushed]
      · rw [hcount, hn1]; simp only [pushed, popCount, List.length_cons]; push_cast; omega
      · simp only [listQueueRun, listQueuePush]; rw [← hc1]; exact hq
    | pop =>
      obtain ⟨b, x, s1, o, hp, hr, rfl⟩ := run_pop cap s s2 ops outs h
      obtain ⟨x1, s1b, hp1, hw1, hc1, hn1⟩ := pop_wf cap s hw (pop_some cap s _ hp)
      rw [hp] at hp1
      cases hp1
      obtain ⟨hw2, hcons, hlen, hcount, hq⟩ := ih s1 s2 o hw1 hr
      refine ⟨hw2, ?_, by simpa [popCount] using hlen, ?_, ?_⟩
      · rw [hc1]; simp only [pushed, List.cons_append]; rw [hcons]
      · rw [hcount, hn1]; simp only [pushed, popCount]; push_cast; omega
      · simp only [listQueueRun, hc1, listQueuePop, hq]

theorem run_count_bounds (cap : Int) (ops : List Op) :
    ∀ (s s2 : ThreadSafeCircularBuffer) (outs : List Int), 0 ≤ s.count → s.count ≤ cap →
      run cap s ops = some (s2, outs) → 0 ≤ s2.count ∧ s2.count ≤ cap := by
  induction ops with
  | nil =>
    intro s s2 outs h0 h1 h
    simp only [run, Option.some.injEq, Prod.mk.injEq] at h
    obtain ⟨rfl, _⟩ := h
    exact ⟨h0, h1⟩
  | cons op ops ih =>
    intro s s2 outs h0 h1 h
    cases op with
    | push v =>
      obtain ⟨s1, hp, hr⟩ := run_push cap s s2 v ops outs h
      have hlt := push_some cap s s1 v hp
      have hs1 : s1.count = s.count + 1 := by
        simp only [push, hlt, if_true, Option.some.injEq] at hp
        rw [← hp]
      exact ih s1 s2 outs (by omega) (by omega) hr
    | pop =>
      obtain ⟨b, x, s1, o, hp, hr, _⟩ := run_pop cap s s2 ops outs h
      have hlt := pop_some cap s _ hp
      have hs1 : s1.count = s.count - 1 := by
        have hgt : s.count > 0 := hlt
        simp only [pop, hgt, if_true, Option.some.injEq, Prod.mk.injEq] at hp
        rw [← hp.2.2]
      exact ih s1 s2 o (by omega) (by omega) hr

theorem ringFrom_length (cap : Int) (buf : List Int) (n : Nat) :
    ∀ out : Int, (ringFrom cap buf out n).length = n := by
  induction n with
  | zero => intro out; rfl
  | succ n ih => intro out; simp [ringFrom, ih]

theorem contents_length (cap : Int) (s : ThreadSafeCircularBuffer) :
    (contents cap s).length = s.count.toNat :=
  ringFrom_length cap s.buffer s.count.toNat s.out

theorem pushed_append (a b : List Op) : pushed (a ++ b) = pushed a ++ pushed b := by
  induction a with
  | nil => rfl
  | cons op a ih => cases op <;> simp [pushed, ih]

theorem run_append (cap : Int) (a b : List Op) :
    ∀ (s s2 : ThreadSafeCircularBuffer) (outs : List Int),
      run cap s (a ++ b) = some (s2, outs) →
      ∃ s1 o1 o2, run cap s a = some (s1, o1) ∧ run cap s1 b = some (s2, o2)
        ∧ outs = o1 ++ o2 := by
  induction a with
  | nil =>
    intro s s2 outs h
    exact ⟨s, [], outs, rfl, h, rfl⟩
  | cons op a ih =>
    intro s s2 outs h
    cases op with
    | push v =>
      obtain ⟨s1, hp, hr⟩ := run_push cap s s2 v (a ++ b) outs h
      obtain ⟨s3, o1, o2, h1, h2, h3⟩ := ih s1 s2 outs hr
      refine ⟨s3, o1, o2, ?_, h2, h3⟩
      simp [run, step, hp, h1]
    | pop =>
      obtain ⟨bo, x, s1, o, hp, hr, ho⟩ := run_pop cap s s2 (a ++ b) outs h
      obtain ⟨s3, o1, o2, h1, h2, h3⟩ := ih s1 s2 o hr
      refine ⟨s3, x :: o1, o2, ?_, h2, ?_⟩
      · simp [run, step, hp, h1]
      · rw [ho, h3]; rfl

/-! ## The claims -/

/-- C1, capacity invariant: in every state reached from the freshly constructed
buffer by a finite sequence of completed pushes and pops, `0 ≤ count` and
`count ≤ capacity`, for every capacity that is not negative (the source's
`BUFFER_SIZE` among them), whatever the array holds initially. -/
theorem capacity_invariant (cap : Int) (slots : List Int) (ops : List Op)
    (s : ThreadSafeCircularBuffer) (outs : List Int) (hcap : 0 ≤ cap)
    (h : run cap (fresh slots) ops = some (s, outs)) :
    0 ≤ s.count ∧ s.count ≤ cap :=
  run_count_bounds cap ops (fresh slots) s outs (by simp [ThreadSafeCircularBuffer.fresh])
    (by simpa [ThreadSafeCircularBuffer.fresh] using hcap) h

/-- C1 at the source's capacity, on a run that fills the buffer completely and
drains it again. -/
theorem capacity_invariant_witness :
    run BUFFER_SIZE (fresh [0, 0, 0, 0, 0])
        [.push 1, .push 2, .push 3, .push 4, .push 5, .pop, .pop]
      = some (⟨[1, 2, 3, 4, 5], 0, 2, 3⟩, [1, 2])
    ∧ (0 ≤ (⟨[1, 2, 3, 4, 5], 0, 2, 3⟩ : ThreadSafeCircularBuffer).count
      ∧ (⟨[1, 2, 3, 4, 5], 0, 2, 3⟩ : ThreadSafeCircularBuffer).count ≤ BUFFER_SIZE) :=
  ⟨by decide,
   capacity_invariant BUFFER_SIZE [0, 0, 0, 0, 0]
     [.push 1, .push 2, .push 3, .push 4, .push 5, .pop, .pop]
     ⟨[1, 2, 3, 4, 5], 0, 2, 3⟩ [1, 2] (by decide) (by decide)⟩

/-- C2, FIFO delivery: for every completed call sequence from the freshly
constructed buffer, the N-th popped value is the N-th pushed value, and the
sequence is a call sequence of the list queue (push appends at the back, pop
removes from the front) from the empty queue, ending in the ring's contents with
the same popped values. -/
theorem fifo_delivery (cap : Int) (slots : List Int) (ops : List Op)
    (s : ThreadSafeCircularBuffer) (outs : List Int) (hcap : 0 < cap)
    (hlen : (slots.length : Int) = cap)
    (h : run cap (fresh slots) ops = some (s, outs)) :
    (∀ (N : Nat) (x : Int), outs[N]? = some x → (pushed ops)[N]? = some x)
      ∧ listQueueRun [] ops = some (contents cap s, outs) := by
  obtain ⟨_, hcons, _, _, hq⟩ :=
    run_wf cap ops (fresh slots) s outs (wf_fresh cap slots hcap hlen) h
  rw [contents_fresh] at hcons hq
  refine ⟨?_, hq⟩
  intro N x hx
  rw [List.nil_append] at hcons
  rw [hcons]
  have hN : N < outs.length := by
    by_contra hge
    rw [List.getElem?_eq_none (by omega)] at hx
    exact absurd hx (by simp)
  rw [List.getElem?_append_left hN]
  exact hx

/-- C2 at the source's capacity, on a run in which both `in` and `out` wrap
around past `BUFFER_SIZE`. -/
theorem fifo_delivery_witness :
    run BUFFER_SIZE (fresh [0, 0, 0, 0, 0])
        [.push 1, .push 2, .push 3, .push 4, .push 5, .pop, .pop, .pop, .push 6, .push 7,
         .pop, .pop, .pop]
      = some (⟨[6, 7, 3, 4, 5], 2, 1, 1⟩, [1, 2, 3, 4, 5, 6])
    ∧ ((∀ (N : Nat) (x : Int), ([1, 2, 3, 4, 5, 6] : List Int)[N]? = some x →
          (pushed [.push 1, .push 2, .push 3, .push 4, .push 5, .pop, .pop, .pop, .push 6,
            .push 7, .pop, .pop, .pop])[N]? = some x)
      ∧ listQueueRun []
          [.push 1, .push 2, .push 3, .push 4, .push 5, .pop, .pop, .pop, .push 6, .push 7,
           .pop, .pop, .pop]
        = some (contents BUFFER_SIZE ⟨[6, 7, 3, 4, 5], 2, 1, 1⟩, [1, 2, 3, 4, 5, 6])) :=
  ⟨by decide,
   fifo_delivery BUFFER_SIZE [0, 0, 0, 0, 0]
     [.push 1, .push 2, .push 3, .push 4, .push 5, .pop, .pop, .pop, .push 6, .push 7,
      .pop, .pop, .pop]
     ⟨[6, 7, 3, 4, 5], 2, 1, 1⟩ [1, 2, 3, 4, 5, 6] (by decide) (by decide) (by decide)⟩

/-- C4, effect of push: in a state with `count < capacity` whose `in` is an
index of the `capacity`-slot array, `push(v)` completes and yields the state
with `buffer[in_old] = v`, `in = (in_old + 1) mod capacity` (the mathematical
remainder), `count = count_old + 1`, the same `out`, the same number of slots
and every slot other than `in_old` unchanged. -/
theorem push_effect (cap : Int) (s : ThreadSafeCircularBuffer) (v : Int)
    (hc : s.count < cap) (hlen : (s.buffer.length : Int) = cap)
    (hin0 : 0 ≤ s.in_) (hin1 : s.in_ < cap) :
    ∃ s1, push cap s v = some s1
      ∧ s1.buffer[s.in_.toNat]? = some v
      ∧ s1.in_ = (s.in_ + 1) % cap
      ∧ s1.count = s.count + 1
      ∧ s1.out = s.out
      ∧ s1.buffer.length = s.buffer.length
      ∧ ∀ i : Nat, i ≠ s.in_.toNat → s1.buffer[i]? = s.buffer[i]? := by
  have hlt : s.in_.toNat < s.buffer.length := by omega
  refine ⟨{ buffer := s.buffer.set s.in_.toNat v, in_ := Int.tmod (s.in_ + 1) cap,
             out := s.out, count := s.count + 1 }, by simp [push, hc], ?_, ?_, rfl, rfl, ?_, ?_⟩
  · simp [List.getElem?_set_self, hlt]
  · exact tmod_succ s.in_ cap hin0 hin1
  · simp
  · intro i hi
    exact List.getElem?_set_ne (Ne.symm hi)

/-- C4 on the source's buffer holding 4 values with `in` at the last slot: the
push writes slot 4 and wraps `in` to 0. -/
theorem push_effect_witness :
    ∃ s1, push BUFFER_SIZE ⟨[1, 2, 3, 4, 0], 4, 0, 4⟩ 9 = some s1
      ∧ s1.buffer[(4 : Int).toNat]? = some 9
      ∧ s1.in_ = (4 + 1) % BUFFER_SIZE
      ∧ s1.count = 4 + 1
      ∧ s1.out = 0
      ∧ s1.buffer.length = ([1, 2, 3, 4, 0] : List Int).length
      ∧ ∀ i : Nat, i ≠ (4 : Int).toNat → s1.buffer[i]? = ([1, 2, 3, 4, 0] : List Int)[i]? :=
  push_effect BUFFER_SIZE ⟨[1, 2, 3, 4, 0], 4, 0, 4⟩ 9 (by decide) (by decide) (by decide)
    (by decide)

/-- C5, effect of pop: in a state with `count > 0` whose `out` is an index of
the `capacity`-slot array, `pop` completes, returns `true` with the value stored
in `buffer[out_old]`, and yields the state with
`out = (out_old + 1) mod capacity`, `count = count_old - 1`, the same `in` and
the same slots. -/
theorem pop_effect (cap : Int) (s : ThreadSafeCircularBuffer)
    (hc : 0 < s.count) (hlen : (s.buffer.length : Int) = cap)
    (hout0 : 0 ≤ s.out) (hout1 : s.out < cap) :
    ∃ x s1, pop cap s = some (true, x, s1)
      ∧ s.buffer[s.out.toNat]? = some x
      ∧ s1.out = (s.out + 1) % cap
      ∧ s1.count = s.count - 1
      ∧ s1.in_ = s.in_
      ∧ s1.buffer = s.buffer := by
  have hlt : s.out.toNat < s.buffer.length := by omega
  refine ⟨s.buffer.getD s.out.toNat 0,
    { buffer := s.buffer, in_ := s.in_, out := Int.tmod (s.out + 1) cap,
      count := s.count - 1 }, by simp [pop, hc], ?_, ?_, rfl, rfl, rfl⟩
  · simp [List.getD_eq_getElem?_getD, List.getElem?_eq_getElem hlt]
  · exact tmod_succ s.out cap hout0 hout1

/-- C5 on the source's full buffer with `out` at the last slot: the pop returns
slot 4 and wraps `out` to 0. -/
theorem pop_effect_witness :
    ∃ x s1, pop BUFFER_SIZE ⟨[6, 7, 8, 9, 5], 4, 4, 5⟩ = some (true, x, s1)
      ∧ ([6, 7, 8, 9, 5] : List Int)[(4 : Int).toNat]? = some x
      ∧ s1.out = (4 + 1) % BUFFER_SIZE
      ∧ s1.count = 5 - 1
      ∧ s1.in_ = 4
      ∧ s1.buffer = [6, 7, 8, 9, 5] :=
  pop_effect BUFFER_SIZE ⟨[6, 7, 8, 9, 5], 4, 4, 5⟩ (by decide) (by decide) (by decide)
    (by decide)

/-- C6, empty/full reporting: in every state `empty()` is true exactly when
`count == 0` and `full()` exactly when `count == capacity`; with a positive
capacity no state has both true, and the fresh buffer is empty and not full. -/
theorem empty_full_reporting (cap : Int) (hcap : 0 < cap) (s : ThreadSafeCircularBuffer)
    (slots : List Int) :
    (empty s = true ↔ s.count = 0)
      ∧ (full cap s = true ↔ s.count = cap)
      ∧ ¬ (empty s = true ∧ full cap s = true)
      ∧ empty (fresh slots) = true
      ∧ full cap (fresh slots) = false := by
  refine ⟨by simp [empty], by simp [full], ?_, by simp [empty, ThreadSafeCircularBuffer.fresh],
    ?_⟩
  · simp only [empty, full, beq_iff_eq]
    omega
  · simp only [full, ThreadSafeCircularBuffer.fresh, beq_eq_false_iff_ne, ne_eq]
    omega

/-- C6 at the source's capacity, on the full buffer. -/
theorem empty_full_reporting_witness :
    (empty ⟨[1, 2, 3, 4, 5], 0, 0, 5⟩ = true
        ↔ (⟨[1, 2, 3, 4, 5], 0, 0, 5⟩ : ThreadSafeCircularBuffer).count = 0)
      ∧ (full BUFFER_SIZE ⟨[1, 2, 3, 4, 5], 0, 0, 5⟩ = true
        ↔ (⟨[1, 2, 3, 4, 5], 0, 0, 5⟩ : ThreadSafeCircularBuffer).count = BUFFER_SIZE)
      ∧ ¬ (empty ⟨[1, 2, 3, 4, 5], 0, 0, 5⟩ = true
        ∧ full BUFFER_SIZE ⟨[1, 2, 3, 4, 5], 0, 0, 5⟩ = true)
      ∧ empty (fresh [0, 0, 0, 0, 0]) = true
      ∧ full BUFFER_SIZE (fresh [0, 0, 0, 0, 0]) = false :=
  empty_full_reporting BUFFER_SIZE (by decide) ⟨[1, 2, 3, 4, 5], 0, 0, 5⟩ [0, 0, 0, 0, 0]

/-- C7, conservation: for every completed call sequence from the freshly
constructed buffer, the popped values followed by the values still held (from
`out`, in ring order, `count` of them) are exactly the pushed values; `count` is
the number of pushes minus the number of pops; and once the buffer is drained
the popped values are the pushed values, as many as were pushed. -/
theorem conservation (cap : Int) (slots : List Int) (ops : List Op)
    (s : ThreadSafeCircularBuffer) (outs : List Int) (hcap : 0 < cap)
    (hlen : (slots.length : Int) = cap)
    (h : run cap (fresh slots) ops = some (s, outs)) :
    outs ++ contents cap s = pushed ops
      ∧ ((contents cap s).length : Int) = s.count
      ∧ outs.length = popCount ops
      ∧ s.count = ((pushed ops).length : Int) - (popCount ops : Int)
      ∧ (s.count = 0 → outs = pushed ops ∧ popCount ops = (pushed ops).length) := by
  obtain ⟨hw, hcons, hout, hcount, _⟩ :=
    run_wf cap ops (fresh slots) s outs (wf_fresh cap slots hcap hlen) h
  rw [contents_fresh, List.nil_append] at hcons
  have hfresh : (fresh slots).count = 0 := rfl
  have hcl : ((contents cap s).length : Int) = s.count := by
    rw [contents_length]
    have := hw.count_lo
    omega
  refine ⟨hcons.symm, hcl, hout, by omega, ?_⟩
  intro h0
  have hnil : contents cap s = [] := by
    apply List.eq_nil_of_length_eq_zero
    rw [contents_length, h0]
    rfl
  rw [hnil, List.append_nil] at hcons
  refine ⟨hcons.symm, ?_⟩
  omega

/-- C7 at the source's capacity, on a run that wraps around and ends with two
values still held. -/
theorem conservation_witness :
    run BUFFER_SIZE (fresh [0, 0, 0, 0, 0])
        [.push 1, .push 2, .push 3, .push 4, .pop, .pop, .pop, .push 5, .push 6, .pop]
      = some (⟨[6, 2, 3, 4, 5], 1, 4, 2⟩, [1, 2, 3, 4])
    ∧ ([1, 2, 3, 4] ++ contents BUFFER_SIZE ⟨[6, 2, 3, 4, 5], 1, 4, 2⟩
        = pushed [.push 1, .push 2, .push 3, .push 4, .pop, .pop, .pop, .push 5, .push 6, .pop]
      ∧ ((contents BUFFER_SIZE ⟨[6, 2, 3, 4, 5], 1, 4, 2⟩).length : Int)
        = (⟨[6, 2, 3, 4, 5], 1, 4, 2⟩ : ThreadSafeCircularBuffer).count
      ∧ ([1, 2, 3, 4] : List Int).length
        = popCount [.push 1, .push 2, .push 3, .push 4, .pop, .pop, .pop, .push 5, .push 6,
            .pop]
      ∧ (⟨[6, 2, 3, 4, 5], 1, 4, 2⟩ : ThreadSafeCircularBuffer).count
        = ((pushed [.push 1, .push 2, .push 3, .push 4, .pop, .pop, .pop, .push 5, .push 6,
            .pop]).length : Int)
          - (popCount [.push 1, .push 2, .push 3, .push 4, .pop, .pop, .pop, .push 5, .push 6,
            .pop] : Int)
      ∧ ((⟨[6, 2, 3, 4, 5], 1, 4, 2⟩ : ThreadSafeCircularBuffer).count = 0 →
          [1, 2, 3, 4]
            = pushed [.push 1, .push 2, .push 3, .push 4, .pop, .pop, .pop, .push 5, .push 6,
                .pop]
          ∧ popCount [.push 1, .push 2, .push 3, .push 4, .pop, .pop, .pop, .push 5, .push 6,
                .pop]
            = (pushed [.push 1, .push 2, .push 3, .push 4, .pop, .pop, .pop, .push 5, .push 6,
                .pop]).length)) :=
  ⟨by decide,
   conservation BUFFER_SIZE [0, 0, 0, 0, 0]
     [.push 1, .push 2, .push 3, .push 4, .pop, .pop, .pop, .push 5, .push 6, .pop]
     ⟨[6, 2, 3, 4, 5], 1, 4, 2⟩ [1, 2, 3, 4] (by decide) (by decide) (by decide)⟩

/-- C8, blocking on full: in a state with `count == capacity` no push completes
(`none`: no slot written, `in` and `count` as they were).  If further calls and
then `push(v)` do complete from such a state, the first of those calls is a pop;
on a well-formed ring that pop returns the oldest held value `x`, which is the
first value delivered, while `v` is the newest held value afterwards: the
delivered values followed by the held ones are the old contents, the values
pushed in between, and `v` last. -/
theorem blocking_on_full (cap : Int) (s : ThreadSafeCircularBuffer) (hfull : s.count = cap) :
    (∀ v : Int, push cap s v = none)
      ∧ (∀ (ops : List Op) (v : Int) (s2 : ThreadSafeCircularBuffer) (outs : List Int),
          run cap s (ops ++ [.push v]) = some (s2, outs) → ∃ rest, ops = .pop :: rest)
      ∧ (Wf cap s → ∀ (ops : List Op) (v : Int) (s2 : ThreadSafeCircularBuffer)
          (outs : List Int), run cap s (ops ++ [.push v]) = some (s2, outs) →
          ∃ (x : Int) (s1 : ThreadSafeCircularBuffer) (o q : List Int),
            pop cap s = some (true, x, s1) ∧ outs = x :: o ∧ contents cap s2 = q ++ [v]
              ∧ x :: o ++ (q ++ [v]) = contents cap s ++ pushed ops ++ [v]) := by
  have hnone : ∀ v : Int, push cap s v = none := by
    intro v
    simp [push, hfull]
  have hfirst : ∀ (ops : List Op) (v : Int) (s2 : ThreadSafeCircularBuffer)
      (outs : List Int), run cap s (ops ++ [.push v]) = some (s2, outs) →
      ∃ rest, ops = .pop :: rest := by
    intro ops v s2 outs h
    cases ops with
    | nil =>
      obtain ⟨s1, hp, _⟩ := run_push cap s s2 v [] outs h
      rw [hnone v] at hp
      exact absurd hp (by simp)
    | cons op rest =>
      cases op with
      | push w =>
        rw [List.cons_append] at h
        obtain ⟨s1, hp, _⟩ := run_push cap s s2 w (rest ++ [.push v]) outs h
        rw [hnone w] at hp
        exact absurd hp (by simp)
      | pop => exact ⟨rest, rfl⟩
  refine ⟨hnone, hfirst, ?_⟩
  intro hw ops v s2 outs h
  obtain ⟨rest, rfl⟩ := hfirst ops v s2 outs h
  obtain ⟨sm, o1, o2, h1, h2, rfl⟩ := run_append cap (.pop :: rest) [.push v] s s2 outs h
  obtain ⟨hwm, hcm, _, _, _⟩ := run_wf cap (.pop :: rest) s sm o1 hw h1
  obtain ⟨sp, hp, hnil⟩ := run_push cap sm s2 v [] o2 h2
  simp only [run, Option.some.injEq, Prod.mk.injEq] at hnil
  obtain ⟨rfl, rfl⟩ := hnil
  obtain ⟨sp2, hp2, _, hc2, _⟩ := push_wf cap sm v hwm (push_some cap sm sp v hp)
  rw [hp] at hp2
  cases hp2
  obtain ⟨b, x, s1, o, hpop, _, rfl⟩ := run_pop cap s sm rest o1 h1
  obtain ⟨x1, s1b, hpop1, _, _, _⟩ := pop_wf cap s hw (pop_some cap s _ hpop)
  rw [hpop] at hpop1
  cases hpop1
  refine ⟨x, s1, o, contents cap sm, hpop, by simp, hc2, ?_⟩
  rw [hcm]
  simp

/-- C8 at capacity 1: after `push(7)` the ring is well formed and full, and a
second push `push(8)` does not complete; once a pop has returned 7, `push(8)`
completes, 7 is the value delivered and 8 the value held, and the next pop
delivers 8. -/
theorem blocking_on_full_witness :
    run 1 (fresh [0]) [.push 7] = some (⟨[7], 0, 0, 1⟩, [])
      ∧ Wf 1 ⟨[7], 0, 0, 1⟩
      ∧ push 1 ⟨[7], 0, 0, 1⟩ 8 = none
      ∧ run 1 ⟨[7], 0, 0, 1⟩ ([.pop] ++ [.push 8]) = some (⟨[8], 0, 0, 1⟩, [7])
      ∧ (∃ rest, [Op.pop] = .pop :: rest)
      ∧ (∃ (x : Int) (s1 : ThreadSafeCircularBuffer) (o q : List Int),
          pop 1 ⟨[7], 0, 0, 1⟩ = some (true, x, s1) ∧ [7] = x :: o
            ∧ contents 1 ⟨[8], 0, 0, 1⟩ = q ++ [8]
            ∧ x :: o ++ (q ++ [8]) = contents 1 ⟨[7], 0, 0, 1⟩ ++ pushed [.pop] ++ [8])
      ∧ run 1 ⟨[8], 0, 0, 1⟩ [.pop] = some (⟨[8], 0, 0, 0⟩, [8]) :=
  ⟨by decide,
   ⟨by decide, by decide, by decide, by decide, by decide, by decide, by decide, by decide,
     by decide⟩,
   (blocking_on_full 1 ⟨[7], 0, 0, 1⟩ (by decide)).1 8,
   by decide,
   (blocking_on_full 1 ⟨[7], 0, 0, 1⟩ (by decide)).2.1 [.pop] 8 ⟨[8], 0, 0, 1⟩ [7]
     (by decide),
   (blocking_on_full 1 ⟨[7], 0, 0, 1⟩ (by decide)).2.2
     ⟨by decide, by decide, by decide, by decide, by decide, by decide, by decide, by decide,
       by decide⟩
     [.pop] 8 ⟨[8], 0, 0, 1⟩ [7] (by decide),
   by decide⟩

/-- C9, blocking on empty: in a state with `count == 0` no pop completes.  If
further calls and then a pop do complete from such a state, the first of those
calls is a push; on a well-formed ring the value that pop returns is the value
passed to one of those pushes, namely push number `k` (from 0) when `k` pops
completed before it; and a push of `v` directly followed by a pop returns `v`. -/
theorem blocking_on_empty (cap : Int) (s : ThreadSafeCircularBuffer) (hempty : s.count = 0) :
    pop cap s = none
      ∧ (∀ (ops : List Op) (s2 : ThreadSafeCircularBuffer) (outs : List Int),
          run cap s (ops ++ [.pop]) = some (s2, outs) → ∃ v rest, ops = .push v :: rest)
      ∧ (Wf cap s → ∀ (ops : List Op) (s2 : ThreadSafeCircularBuffer) (outs : List Int),
          run cap s (ops ++ [.pop]) = some (s2, outs) →
          ∃ (o : List Int) (x : Int), outs = o ++ [x] ∧ o.length = popCount ops
            ∧ (pushed ops)[popCount ops]? = some x)
      ∧ (Wf cap s → ∀ v : Int, ∃ s1 s2, push cap s v = some s1
          ∧ pop cap s1 = some (true, v, s2)) := by
  have hnone : pop cap s = none := by
    simp [pop, hempty]
  have hcont : contents cap s = [] := by
    simp [contents, hempty, ringFrom]
  refine ⟨hnone, ?_, ?_, ?_⟩
  · intro ops s2 outs h
    cases ops with
    | nil =>
      obtain ⟨b, x, s1, o, hp, _⟩ := run_pop cap s s2 [] outs h
      rw [hnone] at hp
      exact absurd hp (by simp)
    | cons op rest =>
      cases op with
      | push v => exact ⟨v, rest, rfl⟩
      | pop =>
        rw [List.cons_append] at h
        obtain ⟨b, x, s1, o, hp, _⟩ := run_pop cap s s2 (rest ++ [.pop]) outs h
        rw [hnone] at hp
        exact absurd hp (by simp)
  · intro hw ops s2 outs h
    obtain ⟨sm, o1, o2, h1, h2, rfl⟩ := run_append cap ops [.pop] s s2 outs h
    obtain ⟨hwm, hcm, hlm, _, _⟩ := run_wf cap ops s sm o1 hw h1
    obtain ⟨b, x, s1, o, hpop, hnil, rfl⟩ := run_pop cap sm s2 [] o2 h2
    simp only [run, Option.some.injEq, Prod.mk.injEq] at hnil
    obtain ⟨rfl, rfl⟩ := hnil
    obtain ⟨x1, s1b, hpop1, _, hc1, _⟩ := pop_wf cap sm hwm (pop_some cap sm _ hpop)
    rw [hpop] at hpop1
    cases hpop1
    refine ⟨o1, x, rfl, hlm, ?_⟩
    rw [hcont, List.nil_append, hc1] at hcm
    rw [hcm, ← hlm, List.getElem?_append_right (Nat.le_refl _)]
    simp
  · intro hw v
    obtain ⟨s1, hp, hw1, hc1, hn1⟩ := push_wf cap s v hw (by have := hw.cap_pos; omega)
    obtain ⟨x, s2, hpop, _, hc2, _⟩ := pop_wf cap s1 hw1 (by omega)
    rw [hc1, hcont] at hc2
    simp only [List.nil_append, List.cons.injEq] at hc2
    exact ⟨s1, s2, hp, by rw [hpop, ← hc2.1]⟩

/-- C9 on the source's fresh buffer, which is well formed and empty: a pop
cannot complete; the calls `push(7)`, `push(8)`, `pop` followed by a pop
complete, start with a push, and that last pop returns 8, the value of push
number 1; and `push(7)` directly followed by a pop returns 7. -/
theorem blocking_on_empty_witness :
    Wf BUFFER_SIZE (fresh [0, 0, 0, 0, 0])
      ∧ pop BUFFER_SIZE (fresh [0, 0, 0, 0, 0]) = none
      ∧ run BUFFER_SIZE (fresh [0, 0, 0, 0, 0]) ([.push 7, .push 8, .pop] ++ [.pop])
        = some (⟨[7, 8, 0, 0, 0], 2, 2, 0⟩, [7, 8])
      ∧ (∃ v rest, [Op.push 7, .push 8, .pop] = .push v :: rest)
      ∧ (∃ (o : List Int) (x : Int), [7, 8] = o ++ [x]
          ∧ o.length = popCount [.push 7, .push 8, .pop]
          ∧ (pushed [.push 7, .push 8, .pop])[popCount [.push 7, .push 8, .pop]]? = some x)
      ∧ (∃ s1 s2, push BUFFER_SIZE (fresh [0, 0, 0, 0, 0]) 7 = some s1
          ∧ pop BUFFER_SIZE s1 = some (true, 7, s2)) :=
  ⟨wf_fresh BUFFER_SIZE [0, 0, 0, 0, 0] (by decide) (by decide),
   (blocking_on_empty BUFFER_SIZE (fresh [0, 0, 0, 0, 0]) (by decide)).1,
   by decide,
   (blocking_on_empty BUFFER_SIZE (fresh [0, 0, 0, 0, 0]) (by decide)).2.1
     [.push 7, .push 8, .pop] ⟨[7, 8, 0, 0, 0], 2, 2, 0⟩ [7, 8] (by decide),
   (blocking_on_empty BUFFER_SIZE (fresh [0, 0, 0, 0, 0]) (by decide)).2.2.1
     (wf_fresh BUFFER_SIZE [0, 0, 0, 0, 0] (by decide) (by decide))
     [.push 7, .push 8, .pop] ⟨[7, 8, 0, 0, 0], 2, 2, 0⟩ [7, 8] (by decide),
   (blocking_on_empty BUFFER_SIZE (fresh [0, 0, 0, 0, 0]) (by decide)).2.2.2
     (wf_fresh BUFFER_SIZE [0, 0, 0, 0, 0] (by decide) (by decide)) 7⟩

/-- The capacity is fixed: `BUFFER_SIZE` is 5, hence positive; a completed push
or pop keeps the number of slots; and the array has `BUFFER_SIZE` slots in every
state reached from the fresh buffer. -/
theorem capacity_fixed_for_lifetime :
    BUFFER_SIZE = 5 ∧ 0 < BUFFER_SIZE
      ∧ (∀ (cap : Int) (s s1 : ThreadSafeCircularBuffer) (v : Int),
          push cap s v = some s1 → s1.buffer.length = s.buffer.length)
      ∧ (∀ (cap : Int) (s s1 : ThreadSafeCircularBuffer) (b : Bool) (x : Int),
          pop cap s = some (b, x, s1) → s1.buffer.length = s.buffer.length)
      ∧ (∀ (slots : List Int) (ops : List Op) (s : ThreadSafeCircularBuffer)
          (outs : List Int), (slots.length : Int) = BUFFER_SIZE →
          run BUFFER_SIZE (fresh slots) ops = some (s, outs) →
          (s.buffer.length : Int) = BUFFER_SIZE) := by
  refine ⟨rfl, by decide, ?_, ?_, ?_⟩
  · intro cap s s1 v h
    have hlt := push_some cap s s1 v h
    simp only [push, hlt, if_true, Option.some.injEq] at h
    rw [← h]
    simp
  · intro cap s s1 b x h
    have hgt : s.count > 0 := pop_some cap s _ h
    simp only [pop, hgt, if_true, Option.some.injEq, Prod.mk.injEq] at h
    rw [← h.2.2]
  · intro slots ops s outs hlen h
    exact (run_wf BUFFER_SIZE ops (fresh slots) s outs
      (wf_fresh BUFFER_SIZE slots (by decide) hlen) h).1.len

/-- C11, pop never reports absence: whenever `pop` completes in a state reached
from the freshly constructed buffer, its `bool` result is `true` and the value
stored through the reference is one of the values pushed before; and in no
state at all, reached or not, does `pop` complete with result `false`. -/
theorem pop_never_reports_absence (cap : Int) (slots : List Int) (ops : List Op)
    (s s1 : ThreadSafeCircularBuffer) (outs : List Int) (b : Bool) (x : Int)
    (hcap : 0 < cap) (hlen : (slots.length : Int) = cap)
    (h : run cap (fresh slots) ops = some (s, outs))
    (hp : pop cap s = some (b, x, s1)) :
    b = true ∧ x ∈ pushed ops
      ∧ ∀ (c : Int) (t t1 : ThreadSafeCircularBuffer) (y : Int),
          pop c t ≠ some (false, y, t1) := by
  obtain ⟨hw, hcons, _, _, _⟩ :=
    run_wf cap ops (fresh slots) s outs (wf_fresh cap slots hcap hlen) h
  obtain ⟨x1, s1b, hp1, _, hc1, _⟩ := pop_wf cap s hw (pop_some cap s _ hp)
  rw [hp] at hp1
  simp only [Option.some.injEq, Prod.mk.injEq] at hp1
  obtain ⟨hb, hx, _⟩ := hp1
  refine ⟨hb, ?_, ?_⟩
  · rw [contents_fresh, List.nil_append] at hcons
    rw [hcons, hc1, hx]
    simp
  · intro c t t1 y hpop
    unfold pop at hpop
    split at hpop
    · simp at hpop
    · simp at hpop

/-- C11 on the source's buffer after `push(4)`, `push(9)`, `pop`: the next pop
returns `true` with 9. -/
theorem pop_never_reports_absence_witness :
    run BUFFER_SIZE (fresh [0, 0, 0, 0, 0]) [.push 4, .push 9, .pop]
        = some (⟨[4, 9, 0, 0, 0], 2, 1, 1⟩, [4])
      ∧ pop BUFFER_SIZE ⟨[4, 9, 0, 0, 0], 2, 1, 1⟩
        = some (true, 9, ⟨[4, 9, 0, 0, 0], 2, 2, 0⟩)
      ∧ (true = true ∧ (9 : Int) ∈ pushed [.push 4, .push 9, .pop]
        ∧ ∀ (c : Int) (t t1 : ThreadSafeCircularBuffer) (y : Int),
            pop c t ≠ some (false, y, t1)) :=
  ⟨by decide, by decide,
   pop_never_reports_absence BUFFER_SIZE [0, 0, 0, 0, 0] [.push 4, .push 9, .pop]
     ⟨[4, 9, 0, 0, 0], 2, 1, 1⟩ ⟨[4, 9, 0, 0, 0], 2, 2, 0⟩ [4] true 9
     (by decide) (by decide) (by decide) (by decide)⟩

/-- C15, index safety: in every state reached from the freshly constructed
buffer by completed pushes and pops, `0 ≤ in < capacity` and
`0 ≤ out < capacity`, the array still has `capacity` slots, and so `buffer[in]`
and `buffer[out]` are slots of the array. -/
theorem index_safety (cap : Int) (slots : List Int) (ops : List Op)
    (s : ThreadSafeCircularBuffer) (outs : List Int) (hcap : 0 < cap)
    (hlen : (slots.length : Int) = cap)
    (h : run cap (fresh slots) ops = some (s, outs)) :
    (0 ≤ s.in_ ∧ s.in_ < cap) ∧ (0 ≤ s.out ∧ s.out < cap)
      ∧ (s.buffer.length : Int) = cap
      ∧ s.in_.toNat < s.buffer.length ∧ s.out.toNat < s.buffer.length := by
  obtain ⟨hw, _⟩ := run_wf cap ops (fresh slots) s outs (wf_fresh cap slots hcap hlen) h
  obtain ⟨_, hl, hi0, hi1, ho0, ho1, _, _, _⟩ := hw
  refine ⟨⟨hi0, hi1⟩, ⟨ho0, ho1⟩, hl, ?_, ?_⟩ <;> omega

/-- C15 at the source's capacity, after five pushes (`in` has wrapped to 0) and
four pops (`out` is at the last slot). -/
theorem index_safety_witness :
    run BUFFER_SIZE (fresh [0, 0, 0, 0, 0])
        [.push 1, .push 2, .push 3, .push 4, .push 5, .pop, .pop, .pop, .pop]
      = some (⟨[1, 2, 3, 4, 5], 0, 4, 1⟩, [1, 2, 3, 4])
    ∧ ((0 ≤ (0 : Int) ∧ (0 : Int) < BUFFER_SIZE)
      ∧ (0 ≤ (4 : Int) ∧ (4 : Int) < BUFFER_SIZE)
      ∧ (([1, 2, 3, 4, 5] : List Int).length : Int) = BUFFER_SIZE
      ∧ (0 : Int).toNat < ([1, 2, 3, 4, 5] : List Int).length
      ∧ (4 : Int).toNat < ([1, 2, 3, 4, 5] : List Int).length) :=
  ⟨by decide,
   index_safety BUFFER_SIZE [0, 0, 0, 0, 0]
     [.push 1, .push 2, .push 3, .push 4, .push 5, .pop, .pop, .pop, .pop]
     ⟨[1, 2, 3, 4, 5], 0, 4, 1⟩ [1, 2, 3, 4] (by decide) (by decide) (by decide)⟩

/-- C18, ring-index consistency: in every state reached from the freshly
constructed buffer by completed pushes and pops, `in == (out + count) mod
capacity`; hence `in == out` exactly when `count` is 0 or `capacity`, that is
when `empty()` or `full()` holds, and these two never hold together. -/
theorem ring_index_consistency (cap : Int) (slots : List Int) (ops : List Op)
    (s : ThreadSafeCircularBuffer) (outs : List Int) (hcap : 0 < cap)
    (hlen : (slots.length : Int) = cap)
    (h : run cap (fresh slots) ops = some (s, outs)) :
    s.in_ = (s.out + s.count) % cap
      ∧ (s.in_ = s.out ↔ s.count = 0 ∨ s.count = cap)
      ∧ (s.in_ = s.out ↔ empty s = true ∨ full cap s = true)
      ∧ ¬ (empty s = true ∧ full cap s = true) := by
  obtain ⟨hw, _⟩ := run_wf cap ops (fresh slots) s outs (wf_fresh cap slots hcap hlen) h
  obtain ⟨_, _, _, _, ho0, ho1, hc0, hc1, hring⟩ := hw
  have hiff : s.in_ = s.out ↔ s.count = 0 ∨ s.count = cap := by
    rw [hring, emod_wrap (s.out + s.count) cap (by omega) (by omega)]
    split <;> omega
  refine ⟨hring, hiff, ?_, ?_⟩
  · rw [hiff]
    simp [empty, full]
  · simp only [empty, full, beq_iff_eq]
    omega

/-- C18 at the source's capacity: `in == out == 2` both in an empty state (two
pushes, two pops) and in a full one (five more pushes), told apart by `count`. -/
theorem ring_index_consistency_witness :
    run BUFFER_SIZE (fresh [0, 0, 0, 0, 0]) [.push 1, .push 2, .pop, .pop]
        = some (⟨[1, 2, 0, 0, 0], 2, 2, 0⟩, [1, 2])
      ∧ run BUFFER_SIZE (fresh [0, 0, 0, 0, 0])
          [.push 1, .push 2, .pop, .pop, .push 3, .push 4, .push 5, .push 6, .push 7]
        = some (⟨[6, 7, 3, 4, 5], 2, 2, 5⟩, [1, 2])
      ∧ ((2 : Int) = (2 + 0) % BUFFER_SIZE
        ∧ ((2 : Int) = 2 ↔ (0 : Int) = 0 ∨ (0 : Int) = BUFFER_SIZE)
        ∧ ((2 : Int) = 2 ↔ empty ⟨[1, 2, 0, 0, 0], 2, 2, 0⟩ = true
            ∨ full BUFFER_SIZE ⟨[1, 2, 0, 0, 0], 2, 2, 0⟩ = true)
        ∧ ¬ (empty ⟨[1, 2, 0, 0, 0], 2, 2, 0⟩ = true
            ∧ full BUFFER_SIZE ⟨[1, 2, 0, 0, 0], 2, 2, 0⟩ = true))
      ∧ ((2 : Int) = (2 + 5) % BUFFER_SIZE
        ∧ ((2 : Int) = 2 ↔ (5 : Int) = 0 ∨ (5 : Int) = BUFFER_SIZE)
        ∧ ((2 : Int) = 2 ↔ empty ⟨[6, 7, 3, 4, 5], 2, 2, 5⟩ = true
            ∨ full BUFFER_SIZE ⟨[6, 7, 3, 4, 5], 2, 2, 5⟩ = true)
        ∧ ¬ (empty ⟨[6, 7, 3, 4, 5], 2, 2, 5⟩ = true
            ∧ full BUFFER_SIZE ⟨[6, 7, 3, 4, 5], 2, 2, 5⟩ = true)) :=
  ⟨by decide, by decide,
   ring_index_consistency BUFFER_SIZE [0, 0, 0, 0, 0] [.push 1, .push 2, .pop, .pop]
     ⟨[1, 2, 0, 0, 0], 2, 2, 0⟩ [1, 2] (by decide) (by decide) (by decide),
   ring_index_consistency BUFFER_SIZE [0, 0, 0, 0, 0]
     [.push 1, .push 2, .pop, .pop, .push 3, .push 4, .push 5, .push 6, .push 7]
     ⟨[6, 7, 3, 4, 5], 2, 2, 5⟩ [1, 2] (by decide) (by decide) (by decide)⟩

/-! ## The non-blocking containers, the editor and the linked list -/

theorem queue_foldl_push {α : Type} (vs : List α) :
    ∀ q : ThreadSafeQueue α, (vs.foldl ThreadSafeQueue.push q).queue = q.queue ++ vs := by
  induction vs with
  | nil => intro q; simp
  | cons v vs ih => intro q; simp [List.foldl, ih, ThreadSafeQueue.push]

/-- C14, the non-blocking queue and stack: `push` adds exactly one element;
`pop` on an empty container returns `false` and changes neither the container
nor the caller's variable; `pop` on a non-empty container returns `true`, stores
the front element and removes exactly one element.  The front of the queue is
the oldest element pushed (`v`, after any further pushes `vs`), the front of the
stack the one pushed last. -/
theorem sibling_containers {α : Type} (q : ThreadSafeQueue α) (s : ThreadSafeStack α)
    (v value : α) (vs : List α) :
    (q.push v).size = q.size + 1 ∧ (s.push v).size = s.size + 1
      ∧ (q.empty = true → q.pop value = (false, value, q))
      ∧ (s.empty = true → s.pop value = (false, value, s))
      ∧ (q.empty = false → ∃ x q1, q.pop value = (true, x, q1) ∧ q.queue.head? = some x
          ∧ q1.size + 1 = q.size)
      ∧ (s.empty = false → ∃ x s1, s.pop value = (true, x, s1) ∧ s.stack.head? = some x
          ∧ s1.size + 1 = s.size)
      ∧ (vs.foldl ThreadSafeQueue.push (ThreadSafeQueue.push { queue := [] } v)).pop value
          = (true, v, vs.foldl ThreadSafeQueue.push { queue := [] })
      ∧ (s.push v).pop value = (true, v, s) := by
  refine ⟨by simp [ThreadSafeQueue.push, ThreadSafeQueue.size],
    by simp [ThreadSafeStack.push, ThreadSafeStack.size], ?_, ?_, ?_, ?_, ?_, rfl⟩
  · intro h
    obtain ⟨l⟩ := q
    cases l with
    | nil => rfl
    | cons x rest => simp [ThreadSafeQueue.empty] at h
  · intro h
    obtain ⟨l⟩ := s
    cases l with
    | nil => rfl
    | cons x rest => simp [ThreadSafeStack.empty] at h
  · intro h
    obtain ⟨l⟩ := q
    cases l with
    | nil => simp [ThreadSafeQueue.empty] at h
    | cons x rest => exact ⟨x, ⟨rest⟩, rfl, rfl, rfl⟩
  · intro h
    obtain ⟨l⟩ := s
    cases l with
    | nil => simp [ThreadSafeStack.empty] at h
    | cons x rest => exact ⟨x, ⟨rest⟩, rfl, rfl, rfl⟩
  · have h1 := queue_foldl_push vs (ThreadSafeQueue.push { queue := [] } v)
    have h2 := queue_foldl_push vs ({ queue := [] } : ThreadSafeQueue α)
    have e1 : vs.foldl ThreadSafeQueue.push (ThreadSafeQueue.push { queue := [] } v)
        = { queue := v :: vs } := by
      cases hq : vs.foldl ThreadSafeQueue.push (ThreadSafeQueue.push { queue := [] } v)
      rw [hq] at h1
      simp only [ThreadSafeQueue.push, List.nil_append, List.singleton_append] at h1
      rw [h1]
    have e2 : vs.foldl ThreadSafeQueue.push ({ queue := [] } : ThreadSafeQueue α)
        = { queue := vs } := by
      cases hq : vs.foldl ThreadSafeQueue.push ({ queue := [] } : ThreadSafeQueue α)
      rw [hq] at h2
      simp only [List.nil_append] at h2
      rw [h2]
    rw [e1, e2]
    rfl

/-- C14 on a queue and a stack of integers: the hypotheses of each case hold and
the results are the ones stated. -/
theorem sibling_containers_witness :
    (ThreadSafeQueue.empty ({ queue := [] } : ThreadSafeQueue Int) = true
        ∧ ThreadSafeQueue.pop ({ queue := [] } : ThreadSafeQueue Int) 7
          = (false, 7, { queue := [] }))
      ∧ (ThreadSafeStack.empty ({ stack := [] } : ThreadSafeStack Int) = true
        ∧ ThreadSafeStack.pop ({ stack := [] } : ThreadSafeStack Int) 7
          = (false, 7, { stack := [] }))
      ∧ (ThreadSafeQueue.empty ({ queue := [1, 2, 3] } : ThreadSafeQueue Int) = false
        ∧ ∃ x q1, ThreadSafeQueue.pop ({ queue := [1, 2, 3] } : ThreadSafeQueue Int) 7
            = (true, x, q1) ∧ ([1, 2, 3] : List Int).head? = some x
          ∧ q1.size + 1 = ThreadSafeQueue.size ({ queue := [1, 2, 3] } : ThreadSafeQueue Int))
      ∧ (ThreadSafeStack.empty ({ stack := [3, 2, 1] } : ThreadSafeStack Int) = false
        ∧ ∃ x s1, ThreadSafeStack.pop ({ stack := [3, 2, 1] } : ThreadSafeStack Int) 7
            = (true, x, s1) ∧ ([3, 2, 1] : List Int).head? = some x
          ∧ s1.size + 1 = ThreadSafeStack.size ({ stack := [3, 2, 1] } : ThreadSafeStack Int)) :=
  ⟨⟨by decide,
    (sibling_containers ({ queue := [] } : ThreadSafeQueue Int)
      ({ stack := [] } : ThreadSafeStack Int) 0 7 []).2.2.1 (by decide)⟩,
   ⟨by decide,
    (sibling_containers ({ queue := [] } : ThreadSafeQueue Int)
      ({ stack := [] } : ThreadSafeStack Int) 0 7 []).2.2.2.1 (by decide)⟩,
   ⟨by decide,
    (sibling_containers ({ queue := [1, 2, 3] } : ThreadSafeQueue Int)
      ({ stack := [3, 2, 1] } : ThreadSafeStack Int) 0 7 []).2.2.2.2.1 (by decide)⟩,
   ⟨by decide,
    (sibling_containers ({ queue := [1, 2, 3] } : ThreadSafeQueue Int)
      ({ stack := [3, 2, 1] } : ThreadSafeStack Int) 0 7 []).2.2.2.2.2.1 (by decide)⟩⟩

theorem clearRedo_stack (items : List String) :
    ∀ temp : String, (undoRedoProblem.clearRedo { stack := items } temp).1 = { stack := [] } := by
  induction items with
  | nil =>
    intro temp
    rw [undoRedoProblem.clearRedo]
    simp [ThreadSafeStack.pop]
  | cons x rest ih =>
    intro temp
    rw [undoRedoProblem.clearRedo]
    simp [ThreadSafeStack.pop, ih]

/-- C17, undo/redo round trip: from every editor state whose undo stack is not
empty, `undo` followed by `redo` gives back the same text, undo stack and redo
stack; from every editor state whatever, after `editText(t)` the redo stack is
empty and a `redo` changes nothing; and on the trace of `undoRedoProblem` the
text after the `redo` is "Hello World" and at the end it is "Hello Galaxy" with
an empty redo stack. -/
theorem undo_redo_round_trip (e : undoRedoProblem.State) (t : String) :
    (e.undoStack.empty = false → undoRedoProblem.redo (undoRedoProblem.undo e) = e)
      ∧ (undoRedoProblem.editText e t).redoStack = { stack := [] }
      ∧ (undoRedoProblem.editText e t).redoStack.empty = true
      ∧ undoRedoProblem.redo (undoRedoProblem.editText e t) = undoRedoProblem.editText e t
      ∧ (undoRedoProblem.redo (undoRedoProblem.undo (undoRedoProblem.undo
          (undoRedoProblem.editText (undoRedoProblem.editText (undoRedoProblem.editText
            undoRedoProblem.init "Hello") "Hello World") "Hello Universe")))).currentText
          = "Hello World"
      ∧ undoRedoProblem.editText (undoRedoProblem.redo (undoRedoProblem.undo
          (undoRedoProblem.undo (undoRedoProblem.editText (undoRedoProblem.editText
            (undoRedoProblem.editText undoRedoProblem.init "Hello") "Hello World")
            "Hello Universe")))) "Hello Galaxy"
          = { undoStack := { stack := ["Hello World", "Hello", ""] }
              redoStack := { stack := [] }
              currentText := "Hello Galaxy" } := by
  obtain ⟨⟨us⟩, ⟨rs⟩, cur⟩ := e
  have hclr : ∀ (items : List String),
      (undoRedoProblem.clearRedo { stack := items } "").1 = { stack := [] } :=
    fun items => clearRedo_stack items ""
  refine ⟨?_, ?_, ?_, ?_, ?_, ?_⟩
  · intro hne
    cases us with
    | nil => simp [ThreadSafeStack.empty] at hne
    | cons p rest => rfl
  · simp [undoRedoProblem.editText, hclr]
  · simp [undoRedoProblem.editText, hclr, ThreadSafeStack.empty]
  · simp [undoRedoProblem.editText, hclr, undoRedoProblem.redo, ThreadSafeStack.pop]
  · simp [undoRedoProblem.editText, hclr, undoRedoProblem.redo, undoRedoProblem.undo,
      undoRedoProblem.init, ThreadSafeStack.pop, ThreadSafeStack.push]
  · simp [undoRedoProblem.editText, hclr, undoRedoProblem.redo, undoRedoProblem.undo,
      undoRedoProblem.init, ThreadSafeStack.pop, ThreadSafeStack.push]

/-- C17 on two states of the editor.  After the three edits of the trace the
undo stack holds three texts and `undo` then `redo` gives the state back.  After
`editText("a")` and `undo` from the initial state the undo stack is empty and
the redo stack holds "a"; `editText("b")` there empties the redo stack, and a
`redo` after it changes nothing. -/
theorem undo_redo_round_trip_witness :
    (ThreadSafeStack.empty ({ stack := ["Hello World", "Hello", ""] } : ThreadSafeStack String)
        = false
      ∧ undoRedoProblem.redo (undoRedoProblem.undo
          { undoStack := { stack := ["Hello World", "Hello", ""] }
            redoStack := { stack := [] }
            currentText := "Hello Universe" })
        = { undoStack := { stack := ["Hello World", "Hello", ""] }
            redoStack := { stack := [] }
            currentText := "Hello Universe" })
      ∧ (undoRedoProblem.undo (undoRedoProblem.editText undoRedoProblem.init "a")
          = { undoStack := { stack := [] }
              redoStack := { stack := ["a"] }
              currentText := "" }
        ∧ (undoRedoProblem.editText
            { undoStack := { stack := [] }
              redoStack := { stack := ["a"] }
              currentText := "" } "b").redoStack = { stack := [] }
        ∧ undoRedoProblem.redo (undoRedoProblem.editText
            { undoStack := { stack := [] }
              redoStack := { stack := ["a"] }
              currentText := "" } "b")
          = undoRedoProblem.editText
            { undoStack := { stack := [] }
              redoStack := { stack := ["a"] }
              currentText := "" } "b") :=
  ⟨⟨by decide,
    (undo_redo_round_trip
      { undoStack := { stack := ["Hello World", "Hello", ""] }
        redoStack := { stack := [] }
        currentText := "Hello Universe" } "x").1 (by decide)⟩,
   ⟨by simp [undoRedoProblem.undo, undoRedoProblem.editText, undoRedoProblem.init,
      clearRedo_stack, ThreadSafeStack.pop, ThreadSafeStack.push],
    (undo_redo_round_trip
      { undoStack := { stack := [] }
        redoStack := { stack := ["a"] }
        currentText := "" } "b").2.1,
    (undo_redo_round_trip
      { undoStack := { stack := [] }
        redoStack := { stack := ["a"] }
        currentText := "" } "b").2.2.2.1⟩⟩

theorem sizeLoop_elements {α : Type} (p : NodePtr α) :
    ∀ count : Nat, ThreadSafeLinkedList.sizeLoop p count = count + p.elements.length := by
  induction p with
  | nullptr => intro count; simp [ThreadSafeLinkedList.sizeLoop, NodePtr.elements]
  | node data next ih =>
    intro count
    simp only [ThreadSafeLinkedList.sizeLoop, NodePtr.elements, List.length_cons, ih]
    omega

theorem destructorLoop_chain {α : Type} (value0 : α) (p : NodePtr α) :
    ThreadSafeLinkedList.destructorLoop { head := p } value0
      = (p.elements.length, { head := .nullptr }) := by
  induction p with
  | nullptr =>
    rw [ThreadSafeLinkedList.destructorLoop]
    simp [ThreadSafeLinkedList.empty, NodePtr.elements]
  | node data next ih =>
    rw [ThreadSafeLinkedList.destructorLoop]
    simp [ThreadSafeLinkedList.empty, ThreadSafeLinkedList.pop_front, NodePtr.elements, ih]

/-- C19, the linked list: `push_front(v)` followed by `pop_front` returns `true`
with `v` and gives back the list as it was, so the element sequence, `size()`
and `empty()` are as before the push; `size()` is the number of elements; and
the destructor's loop ends after exactly `size()` iterations with
`head == nullptr`. -/
theorem linked_list_round_trip {α : Type} (l : ThreadSafeLinkedList α) (v value value0 : α) :
    (l.push_front v).pop_front value = (true, v, l)
      ∧ ((l.push_front v).pop_front value).2.2.head.elements = l.head.elements
      ∧ ((l.push_front v).pop_front value).2.2.size = l.size
      ∧ ((l.push_front v).pop_front value).2.2.empty = l.empty
      ∧ l.size = l.head.elements.length
      ∧ (l.destructorLoop value0).1 = l.size
      ∧ (l.destructorLoop value0).2.head = .nullptr
      ∧ (l.destructorLoop value0).2.empty = true := by
  obtain ⟨p⟩ := l
  have hsize : ThreadSafeLinkedList.size ({ head := p } : ThreadSafeLinkedList α)
      = p.elements.length := by
    simp [ThreadSafeLinkedList.size, sizeLoop_elements]
  refine ⟨rfl, rfl, rfl, rfl, hsize, ?_, ?_, ?_⟩
  · rw [destructorLoop_chain, hsize]
  · rw [destructorLoop_chain]
  · rw [destructorLoop_chain]
    rfl

/-- C13 as stated fails: `size` is not among the member functions of the class,
and the two non-blocking observers it has do not give the occupancy: they
answer alike in two states of the source's buffer whose `count` differs. -/
theorem size_operation_counterexample :
    "size" ∉ ThreadSafeCircularBuffer.publicMembers
      ∧ empty ⟨[1, 0, 0, 0, 0], 1, 0, 1⟩ = empty ⟨[1, 2, 0, 0, 0], 2, 0, 2⟩
      ∧ full BUFFER_SIZE ⟨[1, 0, 0, 0, 0], 1, 0, 1⟩
          = full BUFFER_SIZE ⟨[1, 2, 0, 0, 0], 2, 0, 2⟩
      ∧ (⟨[1, 0, 0, 0, 0], 1, 0, 1⟩ : ThreadSafeCircularBuffer).count
          ≠ (⟨[1, 2, 0, 0, 0], 2, 0, 2⟩ : ThreadSafeCircularBuffer).count := by
  decide

/-- C13 as amended: the member functions are `push`, `pop`, `empty` and `full`,
with no `size`; the two that never wait, `empty()` and `full()`, each return a
boolean decided by `count` alone, `count == 0` and `count == capacity`, whatever
the slots and the two indices are; and the occupancy cannot be read through
them, since they agree on some states of the source's buffer with different
`count`. -/
theorem observers_read_count :
    ThreadSafeCircularBuffer.publicMembers = ["push", "pop", "empty", "full"]
      ∧ "size" ∉ ThreadSafeCircularBuffer.publicMembers
      ∧ (∀ (cap : Int) (s t : ThreadSafeCircularBuffer),
          (empty s = true ↔ s.count = 0) ∧ (full cap s = true ↔ s.count = cap)
            ∧ (s.count = t.count → empty s = empty t ∧ full cap s = full cap t))
      ∧ ∃ s t : ThreadSafeCircularBuffer, s.count ≠ t.count ∧ empty s = empty t
          ∧ full BUFFER_SIZE s = full BUFFER_SIZE t := by
  refine ⟨rfl, by decide, ?_, ⟨⟨[3, 0, 0, 0, 0], 1, 0, 1⟩, ⟨[3, 4, 5, 0, 0], 3, 0, 3⟩,
    by decide, by decide, by decide⟩⟩
  intro cap s t
  refine ⟨by simp [empty], by simp [full], ?_⟩
  intro h
  simp [empty, full, h]

/-! ## The threads of the test -/

namespace circularBufferTest

theorem inv_producerEnter (cap : Int) (σ σ1 : State) (i : Bool) (value : Int) 
    (hinv : Inv cap σ) (h : step cap σ (.producerEnter i value) = some σ1) : Inv cap σ1 := by
  obtain ⟨hwf, hbal, hrec, hitems, hspace⟩ := hinv
  have hc0 := hwf.count_lo
  have hc1 := hwf.count_hi
  simp only [step] at h
  split at h
  · next k hk =>
    split at h
    · next cb1 hp =>
      obtain ⟨s1, hp1, hw1, _, hn1⟩ := push_wf cap σ.cb value hwf (push_some _ _ _ _ hp)
      rw [hp] at hp1
      cases hp1
      simp only [Option.some.injEq] at h
      subst h
      cases i
      · simp only [State.producer, Bool.false_eq_true, if_false] at hk
        refine ⟨?_, ?_, ?_, ?_, ?_⟩
        · simpa [State.setProducer, State.setConsumer] using hw1
        · simp [State.setProducer, State.setConsumer, State.remP, State.remC, Pc.rem,
            Pc.notifyingNum, Pc.readyNum, Pc.waitingNum, hk, hn1] at hbal ⊢
          omega
        · simp [State.setProducer, State.setConsumer, State.remP, State.remC, Pc.rem,
            Pc.notifyingNum, Pc.readyNum, Pc.waitingNum, hk, hn1] at hrec ⊢
          omega
        · simp [State.setProducer, State.setConsumer, State.remP, State.remC, Pc.rem,
            Pc.notifyingNum, Pc.readyNum, Pc.waitingNum, hk, hn1] at hitems ⊢
          omega
        · simp [State.setProducer, State.setConsumer, State.remP, State.remC, Pc.rem,
            Pc.notifyingNum, Pc.readyNum, Pc.waitingNum, hk, hn1] at hspace ⊢
          omega
      · simp only [State.producer, if_true] at hk
        refine ⟨?_, ?_, ?_, ?_, ?_⟩
        · simpa [State.setProducer, State.setConsumer] using hw1
        · simp [State.setProducer, State.setConsumer, State.remP, State.remC, Pc.rem,
            Pc.notifyingNum, Pc.readyNum, Pc.waitingNum, hk, hn1] at hbal ⊢
          omega
        · simp [State.setProducer, State.setConsumer, State.remP, State.remC, Pc.rem,
            Pc.notifyingNum, Pc.readyNum, Pc.waitingNum, hk, hn1] at hrec ⊢
          omega
        · simp [State.setProducer, State.setConsumer, State.remP, State.remC, Pc.rem,
            Pc.notifyingNum, Pc.readyNum, Pc.waitingNum, hk, hn1] at hitems ⊢
          omega
        · simp [State.setProducer, State.setConsumer, State.remP, State.remC, Pc.rem,
            Pc.notifyingNum, Pc.readyNum, Pc.waitingNum, hk, hn1] at hspace ⊢
          omega
    · next hp =>
      have hfull : ¬ σ.cb.count < cap := by
        intro hlt
        simp [push, hlt] at hp
      simp only [Option.some.injEq] at h
      subst h
      cases i
      · simp only [State.producer, Bool.false_eq_true, if_false] at hk
        refine ⟨?_, ?_, ?_, ?_, ?_⟩
        · simpa [State.setProducer, State.setConsumer] using hwf
        · simp [State.setProducer, State.setConsumer, State.remP, State.remC, Pc.rem,
            Pc.notifyingNum, Pc.readyNum, Pc.waitingNum, hk] at hbal ⊢
          omega
        · simp [State.setProducer, State.setConsumer, State.remP, State.remC, Pc.rem,
            Pc.notifyingNum, Pc.readyNum, Pc.waitingNum, hk] at hrec ⊢
          omega
        · simp [State.setProducer, State.setConsumer, State.remP, State.remC, Pc.rem,
            Pc.notifyingNum, Pc.readyNum, Pc.waitingNum, hk] at hitems ⊢
          omega
        · simp [State.setProducer, State.setConsumer, State.remP, State.remC, Pc.rem,
            Pc.notifyingNum, Pc.readyNum, Pc.waitingNum, hk] at hspace ⊢
          omega
      · simp only [State.producer, if_true] at hk
        refine ⟨?_, ?_, ?_, ?_, ?_⟩
        · simpa [State.setProducer, State.setConsumer] using hwf
        · simp [State.setProducer, State.setConsumer, State.remP, State.remC, Pc.rem,
            Pc.notifyingNum, Pc.readyNum, Pc.waitingNum, hk] at hbal ⊢
          omega
        · simp [State.setProducer, State.setConsumer, State.remP, State.remC, Pc.rem,
            Pc.notifyingNum, Pc.readyNum, Pc.waitingNum, hk] at hrec ⊢
          omega
        · simp [State.setProducer, State.setConsumer, State.remP, State.remC, Pc.rem,
            Pc.notifyingNum, Pc.readyNum, Pc.waitingNum, hk] at hitems ⊢
          omega
        · simp [State.setProducer, State.setConsumer, State.remP, State.remC, Pc.rem,
            Pc.notifyingNum, Pc.readyNum, Pc.waitingNum, hk] at hspace ⊢
          omega
  · exact absurd h (by simp)

theorem inv_consumerEnter (cap : Int) (σ σ1 : State) (i : Bool) 
    (hinv : Inv cap σ) (h : step cap σ (.consumerEnter i) = some σ1) : Inv cap σ1 := by
  obtain ⟨hwf, hbal, hrec, hitems, hspace⟩ := hinv
  have hc0 := hwf.count_lo
  have hc1 := hwf.count_hi
  simp only [step] at h
  split at h
  · next k hk =>
    split at h
    · next b value cb1 hp =>
      obtain ⟨x1, s1, hp1, hw1, _, hn1⟩ := pop_wf cap σ.cb hwf (pop_some _ _ _ hp)
      rw [hp] at hp1
      cases hp1
      simp only [Option.some.injEq] at h
      subst h
      cases i
      · simp only [State.consumer, Bool.false_eq_true, if_false] at hk
        refine ⟨?_, ?_, ?_, ?_, ?_⟩
        · simpa [State.setProducer, State.setConsumer] using hw1
        · simp [State.setProducer, State.setConsumer, State.remP, State.remC, Pc.rem,
            Pc.notifyingNum, Pc.readyNum, Pc.waitingNum, hk, hn1] at hbal ⊢
          omega
        · simp [State.setProducer, State.setConsumer, State.remP, State.remC, Pc.rem,
            Pc.notifyingNum, Pc.readyNum, Pc.waitingNum, hk, hn1] at hrec ⊢
          omega
        · simp [State.setProducer, State.setConsumer, State.remP, State.remC, Pc.rem,
            Pc.notifyingNum, Pc.readyNum, Pc.waitingNum, hk, hn1] at hitems ⊢
          omega
        · simp [State.setProducer, State.setConsumer, State.remP, State.remC, Pc.rem,
            Pc.notifyingNum, Pc.readyNum, Pc.waitingNum, hk, hn1] at hspace ⊢
          omega
      · simp only [State.consumer, if_true] at hk
        refine ⟨?_, ?_, ?_, ?_, ?_⟩
        · simpa [State.setProducer, State.setConsumer] using hw1
        · simp [State.setProducer, State.setConsumer, State.remP, State.remC, Pc.rem,
            Pc.notifyingNum, Pc.readyNum, Pc.waitingNum, hk, hn1] at hbal ⊢
          omega
        · simp [State.setProducer, State.setConsumer, State.remP, State.remC, Pc.rem,
            Pc.notifyingNum, Pc.readyNum, Pc.waitingNum, hk, hn1] at hrec ⊢
          omega
        · simp [State.setProducer, State.setConsumer, State.remP, State.remC, Pc.rem,
            Pc.notifyingNum, Pc.readyNum, Pc.waitingNum, hk, hn1] at hitems ⊢
          omega
        · simp [State.setProducer, State.setConsumer, State.remP, State.remC, Pc.rem,
            Pc.notifyingNum, Pc.readyNum, Pc.waitingNum, hk, hn1] at hspace ⊢
          omega
    · next hp =>
      have hempty : ¬ σ.cb.count > 0 := by
        intro hlt
        simp [pop, hlt] at hp
      simp only [Option.some.injEq] at h
      subst h
      cases i
      · simp only [State.consumer, Bool.false_eq_true, if_false] at hk
        refine ⟨?_, ?_, ?_, ?_, ?_⟩
        · simpa [State.setProducer, State.setConsumer] using hwf
        · simp [State.setProducer, State.setConsumer, State.remP, State.remC, Pc.rem,
            Pc.notifyingNum, Pc.readyNum, Pc.waitingNum, hk] at hbal ⊢
          omega
        · simp [State.setProducer, State.setConsumer, State.remP, State.remC, Pc.rem,
            Pc.notifyingNum, Pc.readyNum, Pc.waitingNum, hk] at hrec ⊢
          omega
        · simp [State.setProducer, State.setConsumer, State.remP, State.remC, Pc.rem,
            Pc.notifyingNum, Pc.readyNum, Pc.waitingNum, hk] at hitems ⊢
          omega
        · simp [State.setProducer, State.setConsumer, State.remP, State.remC, Pc.rem,
            Pc.notifyingNum, Pc.readyNum, Pc.waitingNum, hk] at hspace ⊢
          omega
      · simp only [State.consumer, if_true] at hk
        refine ⟨?_, ?_, ?_, ?_, ?_⟩
        · simpa [State.setProducer, State.setConsumer] using hwf
        · simp [State.setProducer, State.setConsumer, State.remP, State.remC, Pc.rem,
            Pc.notifyingNum, Pc.readyNum, Pc.waitingNum, hk] at hbal ⊢
          omega
        · simp [State.setProducer, State.setConsumer, State.remP, State.remC, Pc.rem,
            Pc.notifyingNum, Pc.readyNum, Pc.waitingNum, hk] at hrec ⊢
          omega
        · simp [State.setProducer, State.setConsumer, State.remP, State.remC, Pc.rem,
            Pc.notifyingNum, Pc.readyNum, Pc.waitingNum, hk] at hitems ⊢
          omega
        · simp [State.setProducer, State.setConsumer, State.remP, State.remC, Pc.rem,
            Pc.notifyingNum, Pc.readyNum, Pc.waitingNum, hk] at hspace ⊢
          omega
  · exact absurd h (by simp)

theorem inv_producerNotify (cap : Int) (σ σ1 : State) (i : Bool) (woken : Option Bool)
    (hinv : Inv cap σ) (h : step cap σ (.producerNotify i woken) = some σ1) : Inv cap σ1 := by
  obtain ⟨hwf, hbal, hrec, hitems, hspace⟩ := hinv
  have hc0 := hwf.count_lo
  have hc1 := hwf.count_hi
  simp only [step] at h
  split at h
  · next k hk =>
    split at h
    · next j =>
      split at h
      · next m hm =>
        simp only [Option.some.injEq] at h
        subst h
        cases i <;> cases j <;>
          simp only [State.producer, State.consumer, Bool.false_eq_true, if_false, if_true] at hk hm
        · refine ⟨?_, ?_, ?_, ?_, ?_⟩
          · simpa [State.setProducer, State.setConsumer] using hwf
          · simp [State.setProducer, State.setConsumer, State.remP, State.remC, Pc.rem,
              Pc.notifyingNum, Pc.readyNum, Pc.waitingNum, hk, hm] at hbal ⊢
            omega
          · simp [State.setProducer, State.setConsumer, State.remP, State.remC, Pc.rem,
              Pc.notifyingNum, Pc.readyNum, Pc.waitingNum, hk, hm] at hrec ⊢
            omega
          · simp [State.setProducer, State.setConsumer, State.remP, State.remC, Pc.rem,
              Pc.notifyingNum, Pc.readyNum, Pc.waitingNum, hk, hm] at hitems ⊢
            omega
          · simp [State.setProducer, State.setConsumer, State.remP, State.remC, Pc.rem,
              Pc.notifyingNum, Pc.readyNum, Pc.waitingNum, hk, hm] at hspace ⊢
            omega
        · refine ⟨?_, ?_, ?_, ?_, ?_⟩
          · simpa [State.setProducer, State.setConsumer] using hwf
          · simp [State.setProducer, State.setConsumer, State.remP, State.remC, Pc.rem,
              Pc.notifyingNum, Pc.readyNum, Pc.waitingNum, hk, hm] at hbal ⊢
            omega
          · simp [State.setProducer, State.setConsumer, State.remP, State.remC, Pc.rem,
              Pc.notifyingNum, Pc.readyNum, Pc.waitingNum, hk, hm] at hrec ⊢
            omega
          · simp [State.setProducer, State.setConsumer, State.remP, State.remC, Pc.rem,
              Pc.notifyingNum, Pc.readyNum, Pc.waitingNum, hk, hm] at hitems ⊢
            omega
          · simp [State.setProducer, State.setConsumer, State.remP, State.remC, Pc.rem,
              Pc.notifyingNum, Pc.readyNum, Pc.waitingNum, hk, hm] at hspace ⊢
            omega
        · refine ⟨?_, ?_, ?_, ?_, ?_⟩
          · simpa [State.setProducer, State.setConsumer] using hwf
          · simp [State.setProducer, State.setConsumer, State.remP, State.remC, Pc.rem,
              Pc.notifyingNum, Pc.readyNum, Pc.waitingNum, hk, hm] at hbal ⊢
            omega
          · simp [State.setProducer, State.setConsumer, State.remP, State.remC, Pc.rem,
              Pc.notifyingNum, Pc.readyNum, Pc.waitingNum, hk, hm] at hrec ⊢
            omega
          · simp [State.setProducer, State.setConsumer, State.remP, State.remC, Pc.rem,
              Pc.notifyingNum, Pc.readyNum, Pc.waitingNum, hk, hm] at hitems ⊢
            omega
          · simp [State.setProducer, State.setConsumer, State.remP, State.remC, Pc.rem,
              Pc.notifyingNum, Pc.readyNum, Pc.waitingNum, hk, hm] at hspace ⊢
            omega
        · refine ⟨?_, ?_, ?_, ?_, ?_⟩
          · simpa [State.setProducer, State.setConsumer] using hwf
          · simp [State.setProducer, State.setConsumer, State.remP, State.remC, Pc.rem,
              Pc.notifyingNum, Pc.readyNum, Pc.waitingNum, hk, hm] at hbal ⊢
            omega
          · simp [State.setProducer, State.setConsumer, State.remP, State.remC, Pc.rem,
              Pc.notifyingNum, Pc.readyNum, Pc.waitingNum, hk, hm] at hrec ⊢
            omega
          · simp [State.setProducer, State.setConsumer, State.remP, State.remC, Pc.rem,
              Pc.notifyingNum, Pc.readyNum, Pc.waitingNum, hk, hm] at hitems ⊢
            omega
          · simp [State.setProducer, State.setConsumer, State.remP, State.remC, Pc.rem,
              Pc.notifyingNum, Pc.readyNum, Pc.waitingNum, hk, hm] at hspace ⊢
            omega
      · exact absurd h (by simp)
    · split at h
      · next hnone =>
        simp only [Option.some.injEq] at h
        subst h
        cases i <;> simp only [State.producer, Bool.false_eq_true, if_false, if_true] at hk
        · refine ⟨?_, ?_, ?_, ?_, ?_⟩
          · simpa [State.setProducer, State.setConsumer] using hwf
          · simp [State.setProducer, State.setConsumer, State.remP, State.remC, Pc.rem,
              Pc.notifyingNum, Pc.readyNum, Pc.waitingNum, hk] at hbal hnone ⊢
            omega
          · simp [State.setProducer, State.setConsumer, State.remP, State.remC, Pc.rem,
              Pc.notifyingNum, Pc.readyNum, Pc.waitingNum, hk] at hrec hnone ⊢
            omega
          · simp [State.setProducer, State.setConsumer, State.remP, State.remC, Pc.rem,
              Pc.notifyingNum, Pc.readyNum, Pc.waitingNum, hk] at hitems hnone ⊢
            omega
          · simp [State.setProducer, State.setConsumer, State.remP, State.remC, Pc.rem,
              Pc.notifyingNum, Pc.readyNum, Pc.waitingNum, hk] at hspace hnone ⊢
            omega
        · refine ⟨?_, ?_, ?_, ?_, ?_⟩
          · simpa [State.setProducer, State.setConsumer] using hwf
          · simp [State.setProducer, State.setConsumer, State.remP, State.remC, Pc.rem,
              Pc.notifyingNum, Pc.readyNum, Pc.waitingNum, hk] at hbal hnone ⊢
            omega
          · simp [State.setProducer, State.setConsumer, State.remP, State.remC, Pc.rem,
              Pc.notifyingNum, Pc.readyNum, Pc.waitingNum, hk] at hrec hnone ⊢
            omega
          · simp [State.setProducer, State.setConsumer, State.remP, State.remC, Pc.rem,
              Pc.notifyingNum, Pc.readyNum, Pc.waitingNum, hk] at hitems hnone ⊢
            omega
          · simp [State.setProducer, State.setConsumer, State.remP, State.remC, Pc.rem,
              Pc.notifyingNum, Pc.readyNum, Pc.waitingNum, hk] at hspace hnone ⊢
            omega
      · exact absurd h (by simp)
  · exact absurd h (by simp)

theorem inv_consumerNotify (cap : Int) (σ σ1 : State) (i : Bool) (woken : Option Bool)
    (hinv : Inv cap σ) (h : step cap σ (.consumerNotify i woken) = some σ1) : Inv cap σ1 := by
  obtain ⟨hwf, hbal, hrec, hitems, hspace⟩ := hinv
  have hc0 := hwf.count_lo
  have hc1 := hwf.count_hi
  simp only [step] at h
  split at h
  · next k hk =>
    split at h
    · next j =>
      split at h
      · next m hm =>
        simp only [Option.some.injEq] at h
        subst h
        cases i <;> cases j <;>
          simp only [State.consumer, State.producer, Bool.false_eq_true, if_false, if_true] at hk hm
        · refine ⟨?_, ?_, ?_, ?_, ?_⟩
          · simpa [State.setProducer, State.setConsumer] using hwf
          · simp [State.setProducer, State.setConsumer, State.remP, State.remC, Pc.rem,
              Pc.notifyingNum, Pc.readyNum, Pc.waitingNum, hk, hm] at hbal ⊢
            omega
          · simp [State.setProducer, State.setConsumer, State.remP, State.remC, Pc.rem,
              Pc.notifyingNum, Pc.readyNum, Pc.waitingNum, hk, hm] at hrec ⊢
            omega
          · simp [State.setProducer, State.setConsumer, State.remP, State.remC, Pc.rem,
              Pc.notifyingNum, Pc.readyNum, Pc.waitingNum, hk, hm] at hitems ⊢
            omega
          · simp [State.setProducer, State.setConsumer, State.remP, State.remC, Pc.rem,
              Pc.notifyingNum, Pc.readyNum, Pc.waitingNum, hk, hm] at hspace ⊢
            omega
        · refine ⟨?_, ?_, ?_, ?_, ?_⟩
          · simpa [State.setProducer, State.setConsumer] using hwf
          · simp [State.setProducer, State.setConsumer, State.remP, State.remC, Pc.rem,
              Pc.notifyingNum, Pc.readyNum, Pc.waitingNum, hk, hm] at hbal ⊢
            omega
          · simp [State.setProducer, State.setConsumer, State.remP, State.remC, Pc.rem,
              Pc.notifyingNum, Pc.readyNum, Pc.waitingNum, hk, hm] at hrec ⊢
            omega
          · simp [State.setProducer, State.setConsumer, State.remP, State.remC, Pc.rem,
              Pc.notifyingNum, Pc.readyNum, Pc.waitingNum, hk, hm] at hitems ⊢
            omega
          · simp [State.setProducer, State.setConsumer, State.remP, State.remC, Pc.rem,
              Pc.notifyingNum, Pc.readyNum, Pc.waitingNum, hk, hm] at hspace ⊢
            omega
        · refine ⟨?_, ?_, ?_, ?_, ?_⟩
          · simpa [State.setProducer, State.setConsumer] using hwf
          · simp [State.setProducer, State.setConsumer, State.remP, State.remC, Pc.rem,
              Pc.notifyingNum, Pc.readyNum, Pc.waitingNum, hk, hm] at hbal ⊢
            omega
          · simp [State.setProducer, State.setConsumer, State.remP, State.remC, Pc.rem,
              Pc.notifyingNum, Pc.readyNum, Pc.waitingNum, hk, hm] at hrec ⊢
            omega
          · simp [State.setProducer, State.setConsumer, State.remP, State.remC, Pc.rem,
              Pc.notifyingNum, Pc.readyNum, Pc.waitingNum, hk, hm] at hitems ⊢
            omega
          · simp [State.setProducer, State.setConsumer, State.remP, State.remC, Pc.rem,
              Pc.notifyingNum, Pc.readyNum, Pc.waitingNum, hk, hm] at hspace ⊢
            omega
        · refine ⟨?_, ?_, ?_, ?_, ?_⟩
          · simpa [State.setProducer, State.setConsumer] using hwf
          · simp [State.setProducer, State.setConsumer, State.remP, State.remC, Pc.rem,
              Pc.notifyingNum, Pc.readyNum, Pc.waitingNum, hk, hm] at hbal ⊢
            omega
          · simp [State.setProducer, State.setConsumer, State.remP, State.remC, Pc.rem,
              Pc.notifyingNum, Pc.readyNum, Pc.waitingNum, hk, hm] at hrec ⊢
            omega
          · simp [State.setProducer, State.setConsumer, State.remP, State.remC, Pc.rem,
              Pc.notifyingNum, Pc.readyNum, Pc.waitingNum, hk, hm] at hitems ⊢
            omega
          · simp [State.setProducer, State.setConsumer, State.remP, State.remC, Pc.rem,
              Pc.notifyingNum, Pc.readyNum, Pc.waitingNum, hk, hm] at hspace ⊢
            omega
      · exact absurd h (by simp)
    · split at h
      · next hnone =>
        simp only [Option.some.injEq] at h
        subst h
        cases i <;> simp only [State.consumer, Bool.false_eq_true, if_false, if_true] at hk
        · refine ⟨?_, ?_, ?_, ?_, ?_⟩
          · simpa [State.setProducer, State.setConsumer] using hwf
          · simp [State.setProducer, State.setConsumer, State.remP, State.remC, Pc.rem,
              Pc.notifyingNum, Pc.readyNum, Pc.waitingNum, hk] at hbal hnone ⊢
            omega
          · simp [State.setProducer, State.setConsumer, State.remP, State.remC, Pc.rem,
              Pc.notifyingNum, Pc.readyNum, Pc.waitingNum, hk] at hrec hnone ⊢
            omega
          · simp [State.setProducer, State.setConsumer, State.remP, State.remC, Pc.rem,
              Pc.notifyingNum, Pc.readyNum, Pc.waitingNum, hk] at hitems hnone ⊢
            omega
          · simp [State.setProducer, State.setConsumer, State.remP, State.remC, Pc.rem,
              Pc.notifyingNum, Pc.readyNum, Pc.waitingNum, hk] at hspace hnone ⊢
            omega
        · refine ⟨?_, ?_, ?_, ?_, ?_⟩
          · simpa [State.setProducer, State.setConsumer] using hwf
          · simp [State.setProducer, State.setConsumer, State.remP, State.remC, Pc.rem,
              Pc.notifyingNum, Pc.readyNum, Pc.waitingNum, hk] at hbal hnone ⊢
            omega
          · simp [State.setProducer, State.setConsumer, State.remP, State.remC, Pc.rem,
              Pc.notifyingNum, Pc.readyNum, Pc.waitingNum, hk] at hrec hnone ⊢
            omega
          · simp [State.setProducer, State.setConsumer, State.remP, State.remC, Pc.rem,
              Pc.notifyingNum, Pc.readyNum, Pc.waitingNum, hk] at hitems hnone ⊢
            omega
          · simp [State.setProducer, State.setConsumer, State.remP, State.remC, Pc.rem,
              Pc.notifyingNum, Pc.readyNum, Pc.waitingNum, hk] at hspace hnone ⊢
            omega
      · exact absurd h (by simp)
  · exact absurd h (by simp)

theorem inv_producerSpurious (cap : Int) (σ σ1 : State) (i : Bool)
    (hinv : Inv cap σ) (h : step cap σ (.producerSpurious i) = some σ1) : Inv cap σ1 := by
  obtain ⟨hwf, hbal, hrec, hitems, hspace⟩ := hinv
  have hc0 := hwf.count_lo
  have hc1 := hwf.count_hi
  simp only [step] at h
  split at h
  · next m hm =>
    simp only [Option.some.injEq] at h
    subst h
    cases i <;> simp only [State.producer, Bool.false_eq_true, if_false, if_true] at hm
    · refine ⟨?_, ?_, ?_, ?_, ?_⟩
      · simpa [State.setProducer, State.setConsumer] using hwf
      · simp [State.setProducer, State.setConsumer, State.remP, State.remC, Pc.rem,
          Pc.notifyingNum, Pc.readyNum, Pc.waitingNum, hm] at hbal ⊢
        omega
      · simp [State.setProducer, State.setConsumer, State.remP, State.remC, Pc.rem,
          Pc.notifyingNum, Pc.readyNum, Pc.waitingNum, hm] at hrec ⊢
        omega
      · simp [State.setProducer, State.setConsumer, State.remP, State.remC, Pc.rem,
          Pc.notifyingNum, Pc.readyNum, Pc.waitingNum, hm] at hitems ⊢
        omega
      · simp [State.setProducer, State.setConsumer, State.remP, State.remC, Pc.rem,
          Pc.notifyingNum, Pc.readyNum, Pc.waitingNum, hm] at hspace ⊢
        omega
    · refine ⟨?_, ?_, ?_, ?_, ?_⟩
      · simpa [State.setProducer, State.setConsumer] using hwf
      · simp [State.setProducer, State.setConsumer, State.remP, State.remC, Pc.rem,
          Pc.notifyingNum, Pc.readyNum, Pc.waitingNum, hm] at hbal ⊢
        omega
      · simp [State.setProducer, State.setConsumer, State.remP, State.remC, Pc.rem,
          Pc.notifyingNum, Pc.readyNum, Pc.waitingNum, hm] at hrec ⊢
        omega
      · simp [State.setProducer, State.setConsumer, State.remP, State.remC, Pc.rem,
          Pc.notifyingNum, Pc.readyNum, Pc.waitingNum, hm] at hitems ⊢
        omega
      · simp [State.setProducer, State.setConsumer, State.remP, State.remC, Pc.rem,
          Pc.notifyingNum, Pc.readyNum, Pc.waitingNum, hm] at hspace ⊢
        omega
  · exact absurd h (by simp)

theorem inv_consumerSpurious (cap : Int) (σ σ1 : State) (i : Bool)
    (hinv : Inv cap σ) (h : step cap σ (.consumerSpurious i) = some σ1) : Inv cap σ1 := by
  obtain ⟨hwf, hbal, hrec, hitems, hspace⟩ := hinv
  have hc0 := hwf.count_lo
  have hc1 := hwf.count_hi
  simp only [step] at h
  split at h
  · next m hm =>
    simp only [Option.some.injEq] at h
    subst h
    cases i <;> simp only [State.consumer, Bool.false_eq_true, if_false, if_true] at hm
    · refine ⟨?_, ?_, ?_, ?_, ?_⟩
      · simpa [State.setProducer, State.setConsumer] using hwf
      · simp [State.setProducer, State.setConsumer, State.remP, State.remC, Pc.rem,
          Pc.notifyingNum, Pc.readyNum, Pc.waitingNum, hm] at hbal ⊢
        omega
      · simp [State.setProducer, State.setConsumer, State.remP, State.remC, Pc.rem,
          Pc.notifyingNum, Pc.readyNum, Pc.waitingNum, hm] at hrec ⊢
        omega
      · simp [State.setProducer, State.setConsumer, State.remP, State.remC, Pc.rem,
          Pc.notifyingNum, Pc.readyNum, Pc.waitingNum, hm] at hitems ⊢
        omega
      · simp [State.setProducer, State.setConsumer, State.remP, State.remC, Pc.rem,
          Pc.notifyingNum, Pc.readyNum, Pc.waitingNum, hm] at hspace ⊢
        omega
    · refine ⟨?_, ?_, ?_, ?_, ?_⟩
      · simpa [State.setProducer, State.setConsumer] using hwf
      · simp [State.setProducer, State.setConsumer, State.remP, State.remC, Pc.rem,
          Pc.notifyingNum, Pc.readyNum, Pc.waitingNum, hm] at hbal ⊢
        omega
      · simp [State.setProducer, State.setConsumer, State.remP, State.remC, Pc.rem,
          Pc.notifyingNum, Pc.readyNum, Pc.waitingNum, hm] at hrec ⊢
        omega
      · simp [State.setProducer, State.setConsumer, State.remP, State.remC, Pc.rem,
          Pc.notifyingNum, Pc.readyNum, Pc.waitingNum, hm] at hitems ⊢
        omega
      · simp [State.setProducer, State.setConsumer, State.remP, State.remC, Pc.rem,
          Pc.notifyingNum, Pc.readyNum, Pc.waitingNum, hm] at hspace ⊢
        omega
  · exact absurd h (by simp)

theorem inv_step (cap : Int) (σ σ1 : State) (a : Act) (hinv : Inv cap σ)
    (h : step cap σ a = some σ1) : Inv cap σ1 := by
  cases a with
  | producerEnter i value => exact inv_producerEnter cap σ σ1 i value hinv h
  | producerNotify i woken => exact inv_producerNotify cap σ σ1 i woken hinv h
  | consumerEnter i => exact inv_consumerEnter cap σ σ1 i hinv h
  | consumerNotify i woken => exact inv_consumerNotify cap σ σ1 i woken hinv h
  | producerSpurious i => exact inv_producerSpurious cap σ σ1 i hinv h
  | consumerSpurious i => exact inv_consumerSpurious cap σ σ1 i hinv h

theorem inv_init (cap : Int) (slots : List Int) (hcap : 0 < cap)
    (hlen : (slots.length : Int) = cap) : Inv cap (init slots) where
  wf := wf_fresh cap slots hcap hlen
  balance := by simp [init, State.remP, State.remC, Pc.rem, ThreadSafeCircularBuffer.fresh]
  received := by simp [init, State.remC, Pc.rem]; omega
  items := by simp [init, Pc.waitingNum]
  space := by simp [init, Pc.waitingNum]

theorem inv_exec (cap : Int) (acts : List Act) :
    ∀ σ σ1 : State, Inv cap σ → exec cap σ acts = some σ1 → Inv cap σ1 := by
  induction acts with
  | nil =>
    intro σ σ1 hinv h
    simp only [exec, Option.some.injEq] at h
    exact h ▸ hinv
  | cons a acts ih =>
    intro σ σ1 hinv h
    simp only [exec] at h
    cases hs : step cap σ a with
    | none => simp [hs] at h
    | some σ2 =>
      simp only [hs] at h
      exact ih σ2 σ1 (inv_step cap σ σ2 a hinv hs) h

theorem progress_producerEnter (cap : Int) (σ : State) (i : Bool) (k : Nat)
    (h : σ.producer i = .ready (k + 1)) :
    ∃ a σ1, a.proper = true ∧ step cap σ a = some σ1 := by
  cases hp : push cap σ.cb 0 with
  | none =>
    exact ⟨.producerEnter i 0, σ.setProducer i (.waiting k), rfl, by simp [step, h, hp]⟩
  | some cb1 =>
    exact ⟨.producerEnter i 0, { σ with cb := cb1 }.setProducer i (.notifying k), rfl,
      by simp [step, h, hp]⟩

theorem progress_consumerEnter (cap : Int) (σ : State) (i : Bool) (k : Nat)
    (h : σ.consumer i = .ready (k + 1)) :
    ∃ a σ1, a.proper = true ∧ step cap σ a = some σ1 := by
  cases hp : pop cap σ.cb with
  | none =>
    exact ⟨.consumerEnter i, σ.setConsumer i (.waiting k), rfl, by simp [step, h, hp]⟩
  | some r =>
    exact ⟨.consumerEnter i,
      { σ with cb := r.2.2, consumed := σ.consumed ++ [r.2.1] }.setConsumer i (.notifying k),
      rfl, by simp [step, h, hp]⟩

theorem progress_producerNotify (cap : Int) (σ : State) (i : Bool) (k : Nat)
    (h : σ.producer i = .notifying k) :
    ∃ a σ1, a.proper = true ∧ step cap σ a = some σ1 := by
  by_cases h0 : ∃ m, σ.consumer0 = .waiting m
  · obtain ⟨m, hm⟩ := h0
    exact ⟨.producerNotify i (some false),
      (σ.setProducer i (.ready k)).setConsumer false (.ready (m + 1)), rfl,
      by simp [step, h, State.consumer, hm]⟩
  · by_cases h1 : ∃ m, σ.consumer1 = .waiting m
    · obtain ⟨m, hm⟩ := h1
      exact ⟨.producerNotify i (some true),
        (σ.setProducer i (.ready k)).setConsumer true (.ready (m + 1)), rfl,
        by simp [step, h, State.consumer, hm]⟩
    · have hz : σ.consumer0.waitingNum + σ.consumer1.waitingNum = 0 := by
        cases hc0 : σ.consumer0 <;> cases hc1 : σ.consumer1 <;>
          simp [Pc.waitingNum, hc0, hc1] at h0 h1 ⊢
      exact ⟨.producerNotify i none, σ.setProducer i (.ready k), rfl, by simp [step, h, hz]⟩

theorem progress_consumerNotify (cap : Int) (σ : State) (i : Bool) (k : Nat)
    (h : σ.consumer i = .notifying k) :
    ∃ a σ1, a.proper = true ∧ step cap σ a = some σ1 := by
  by_cases h0 : ∃ m, σ.producer0 = .waiting m
  · obtain ⟨m, hm⟩ := h0
    exact ⟨.consumerNotify i (some false),
      (σ.setConsumer i (.ready k)).setProducer false (.ready (m + 1)), rfl,
      by simp [step, h, State.producer, hm]⟩
  · by_cases h1 : ∃ m, σ.producer1 = .waiting m
    · obtain ⟨m, hm⟩ := h1
      exact ⟨.consumerNotify i (some true),
        (σ.setConsumer i (.ready k)).setProducer true (.ready (m + 1)), rfl,
        by simp [step, h, State.producer, hm]⟩
    · have hz : σ.producer0.waitingNum + σ.producer1.waitingNum = 0 := by
        cases hc0 : σ.producer0 <;> cases hc1 : σ.producer1 <;>
          simp [Pc.waitingNum, hc0, hc1] at h0 h1 ⊢
      exact ⟨.consumerNotify i none, σ.setConsumer i (.ready k), rfl, by simp [step, h, hz]⟩

/-- A thread that can take no proper step by itself: it has left its loop or it
is blocked in `wait`. -/
theorem idle_or_progress (cap : Int) (σ : State) :
    (∃ a σ1, a.proper = true ∧ step cap σ a = some σ1)
      ∨ ((σ.producer0 = .ready 0 ∨ ∃ m, σ.producer0 = .waiting m)
        ∧ (σ.producer1 = .ready 0 ∨ ∃ m, σ.producer1 = .waiting m)
        ∧ (σ.consumer0 = .ready 0 ∨ ∃ m, σ.consumer0 = .waiting m)
        ∧ (σ.consumer1 = .ready 0 ∨ ∃ m, σ.consumer1 = .waiting m)) := by
  have p0 : (∃ a σ1, a.proper = true ∧ step cap σ a = some σ1)
      ∨ (σ.producer0 = .ready 0 ∨ ∃ m, σ.producer0 = .waiting m) := by
    cases h : σ.producer0 with
    | ready k =>
      cases k with
      | zero => exact Or.inr (Or.inl rfl)
      | succ k => exact Or.inl (progress_producerEnter cap σ false k (by simpa [State.producer]))
    | waiting m => exact Or.inr (Or.inr ⟨m, rfl⟩)
    | notifying k =>
      exact Or.inl (progress_producerNotify cap σ false k (by simpa [State.producer]))
  have p1 : (∃ a σ1, a.proper = true ∧ step cap σ a = some σ1)
      ∨ (σ.producer1 = .ready 0 ∨ ∃ m, σ.producer1 = .waiting m) := by
    cases h : σ.producer1 with
    | ready k =>
      cases k with
      | zero => exact Or.inr (Or.inl rfl)
      | succ k => exact Or.inl (progress_producerEnter cap σ true k (by simpa [State.producer]))
    | waiting m => exact Or.inr (Or.inr ⟨m, rfl⟩)
    | notifying k =>
      exact Or.inl (progress_producerNotify cap σ true k (by simpa [State.producer]))
  have c0 : (∃ a σ1, a.proper = true ∧ step cap σ a = some σ1)
      ∨ (σ.consumer0 = .ready 0 ∨ ∃ m, σ.consumer0 = .waiting m) := by
    cases h : σ.consumer0 with
    | ready k =>
      cases k with
      | zero => exact Or.inr (Or.inl rfl)
      | succ k => exact Or.inl (progress_consumerEnter cap σ false k (by simpa [State.consumer]))
    | waiting m => exact Or.inr (Or.inr ⟨m, rfl⟩)
    | notifying k =>
      exact Or.inl (progress_consumerNotify cap σ false k (by simpa [State.consumer]))
  have c1 : (∃ a σ1, a.proper = true ∧ step cap σ a = some σ1)
      ∨ (σ.consumer1 = .ready 0 ∨ ∃ m, σ.consumer1 = .waiting m) := by
    cases h : σ.consumer1 with
    | ready k =>
      cases k with
      | zero => exact Or.inr (Or.inl rfl)
      | succ k => exact Or.inl (progress_consumerEnter cap σ true k (by simpa [State.consumer]))
    | waiting m => exact Or.inr (Or.inr ⟨m, rfl⟩)
    | notifying k =>
      exact Or.inl (progress_consumerNotify cap σ true k (by simpa [State.consumer]))
  rcases p0 with p0 | p0
  · exact Or.inl p0
  rcases p1 with p1 | p1
  · exact Or.inl p1
  rcases c0 with c0 | c0
  · exact Or.inl c0
  rcases c1 with c1 | c1
  · exact Or.inl c1
  exact Or.inr ⟨p0, p1, c0, c1⟩

/-- No deadlock: under the invariant, as long as a thread is still in its loop
some thread can take a proper step. -/
theorem progress (cap : Int) (σ : State) (hinv : Inv cap σ) (hun : σ.finished = false) :
    ∃ a σ1, a.proper = true ∧ step cap σ a = some σ1 := by
  rcases idle_or_progress cap σ with h | ⟨p0, p1, c0, c1⟩
  · exact h
  · exfalso
    obtain ⟨hwf, hbal, hrec, hitems, hspace⟩ := hinv
    have hc0 := hwf.count_lo
    have hc1 := hwf.count_hi
    have hcap := hwf.cap_pos
    rcases p0 with p0 | ⟨m0, p0⟩ <;> rcases p1 with p1 | ⟨m1, p1⟩ <;>
      rcases c0 with c0 | ⟨n0, c0⟩ <;> rcases c1 with c1 | ⟨n1, c1⟩ <;>
      simp [State.finished, State.remP, State.remC, Pc.rem, Pc.waitingNum, Pc.readyNum,
        Pc.notifyingNum, p0, p1, c0, c1] at hun hbal hitems hspace <;>
      omega

theorem finished_state (cap : Int) (σ : State) (hinv : Inv cap σ) (hfin : σ.finished = true) :
    σ.consumed.length = 2 * NUM_ITEMS ∧ σ.cb.count = 0 ∧ empty σ.cb = true := by
  obtain ⟨hwf, hbal, hrec, _, _⟩ := hinv
  simp only [State.finished, Bool.and_eq_true, beq_iff_eq] at hfin
  obtain ⟨⟨⟨p0, p1⟩, c0⟩, c1⟩ := hfin
  simp [State.remP, State.remC, Pc.rem, p0, p1, c0, c1] at hbal hrec
  exact ⟨hrec, hbal, by simp [empty, hbal]⟩

theorem variant_step (cap : Int) (σ σ1 : State) (a : Act) (h : step cap σ a = some σ1) :
    (a.proper = true → σ1.variant + 1 ≤ σ.variant)
      ∧ (a.proper = false → σ1.variant = σ.variant + 1) := by
  cases a with
  | producerEnter i value =>
    simp only [step] at h
    split at h
    · next k hk =>
      split at h <;> simp only [Option.some.injEq] at h <;> subst h <;> cases i <;>
        simp [State.producer] at hk <;>
        simp [Act.proper, State.variant, State.setProducer, Pc.variant, hk] <;> omega
    · exact absurd h (by simp)
  | consumerEnter i =>
    simp only [step] at h
    split at h
    · next k hk =>
      split at h <;> simp only [Option.some.injEq] at h <;> subst h <;> cases i <;>
        simp [State.consumer] at hk <;>
        simp [Act.proper, State.variant, State.setConsumer, Pc.variant, hk] <;> omega
    · exact absurd h (by simp)
  | producerNotify i woken =>
    simp only [step] at h
    split at h
    · next k hk =>
      split at h
      · next j =>
        split at h
        · next m hm =>
          simp only [Option.some.injEq] at h
          subst h
          cases i <;> cases j <;> simp [State.producer, State.consumer] at hk hm <;>
            simp [Act.proper, State.variant, State.setProducer, State.setConsumer, Pc.variant,
              hk, hm] <;> omega
        · exact absurd h (by simp)
      · split at h
        · simp only [Option.some.injEq] at h
          subst h
          cases i <;> simp [State.producer] at hk <;>
            simp [Act.proper, State.variant, State.setProducer, Pc.variant, hk] <;> omega
        · exact absurd h (by simp)
    · exact absurd h (by simp)
  | consumerNotify i woken =>
    simp only [step] at h
    split at h
    · next k hk =>
      split at h
      · next j =>
        split at h
        · next m hm =>
          simp only [Option.some.injEq] at h
          subst h
          cases i <;> cases j <;> simp [State.producer, State.consumer] at hk hm <;>
            simp [Act.proper, State.variant, State.setProducer, State.setConsumer, Pc.variant,
              hk, hm] <;> omega
        · exact absurd h (by simp)
      · split at h
        · simp only [Option.some.injEq] at h
          subst h
          cases i <;> simp [State.consumer] at hk <;>
            simp [Act.proper, State.variant, State.setConsumer, Pc.variant, hk] <;> omega
        · exact absurd h (by simp)
    · exact absurd h (by simp)
  | producerSpurious i =>
    simp only [step] at h
    split at h
    · next m hm =>
      simp only [Option.some.injEq] at h
      subst h
      cases i <;> simp [State.producer] at hm <;>
        simp [Act.proper, State.variant, State.setProducer, Pc.variant, hm] <;> omega
    · exact absurd h (by simp)
  | consumerSpurious i =>
    simp only [step] at h
    split at h
    · next m hm =>
      simp only [Option.some.injEq] at h
      subst h
      cases i <;> simp [State.consumer] at hm <;>
        simp [Act.proper, State.variant, State.setConsumer, Pc.variant, hm] <;> omega
    · exact absurd h (by simp)

theorem variant_exec (cap : Int) (acts : List Act) :
    ∀ σ σ1 : State, exec cap σ acts = some σ1 →
      properCount acts + σ1.variant ≤ σ.variant + spuriousCount acts := by
  induction acts with
  | nil =>
    intro σ σ1 h
    simp only [exec, Option.some.injEq] at h
    subst h
    simp [properCount, spuriousCount]
  | cons a acts ih =>
    intro σ σ1 h
    simp only [exec] at h
    cases hs : step cap σ a with
    | none => simp [hs] at h
    | some σ2 =>
      simp only [hs] at h
      have h1 := ih σ2 σ1 h
      have h2 := variant_step cap σ σ2 a hs
      cases hp : a.proper with
      | true =>
        have := h2.1 hp
        simp only [properCount, spuriousCount, List.filter_cons, hp] at h1 ⊢
        simp at h1 ⊢
        omega
      | false =>
        have := h2.2 hp
        simp only [properCount, spuriousCount, List.filter_cons, hp] at h1 ⊢
        simp at h1 ⊢
        omega

theorem signal_step (cap : Int) (σ σ1 : State) (a : Act) (h : step cap σ a = some σ1) :
    a.signals.count .not_empty + (σ1.producer0.notifyingNum + σ1.producer1.notifyingNum)
        = pushesCompleted cap σ [a] + (σ.producer0.notifyingNum + σ.producer1.notifyingNum)
      ∧ a.signals.count .not_full + (σ1.consumer0.notifyingNum + σ1.consumer1.notifyingNum)
        = popsCompleted cap σ [a] + (σ.consumer0.notifyingNum + σ.consumer1.notifyingNum) := by
  simp only [pushesCompleted, popsCompleted, h, Nat.add_zero]
  cases a with
  | producerEnter i value =>
    simp only [step] at h
    split at h
    · next k hk =>
      split at h
      · next cb1 hp =>
        simp only [Option.some.injEq] at h
        subst h
        cases i <;> simp [State.producer] at hk <;>
          simp [Act.signals, State.setProducer, Pc.notifyingNum, hk, hp]
        all_goals omega
      · next hp =>
        simp only [Option.some.injEq] at h
        subst h
        cases i <;> simp [State.producer] at hk <;>
          simp [Act.signals, State.setProducer, Pc.notifyingNum, hk, hp]
    · exact absurd h (by simp)
  | consumerEnter i =>
    simp only [step] at h
    split at h
    · next k hk =>
      split at h
      · next b value cb1 hp =>
        simp only [Option.some.injEq] at h
        subst h
        cases i <;> simp [State.consumer] at hk <;>
          simp [Act.signals, State.setConsumer, Pc.notifyingNum, hk, hp]
        all_goals omega
      · next hp =>
        simp only [Option.some.injEq] at h
        subst h
        cases i <;> simp [State.consumer] at hk <;>
          simp [Act.signals, State.setConsumer, Pc.notifyingNum, hk, hp]
    · exact absurd h (by simp)
  | producerNotify i woken =>
    simp only [step] at h
    split at h
    · next k hk =>
      split at h
      · next j =>
        split at h
        · next m hm =>
          simp only [Option.some.injEq] at h
          subst h
          cases i <;> cases j <;> simp [State.producer, State.consumer] at hk hm <;>
            simp [Act.signals, State.setProducer, State.setConsumer, Pc.notifyingNum, hk, hm]
              <;> omega
        · exact absurd h (by simp)
      · split at h
        · simp only [Option.some.injEq] at h
          subst h
          cases i <;> simp [State.producer] at hk <;>
            simp [Act.signals, State.setProducer, Pc.notifyingNum, hk]
          all_goals omega
        · exact absurd h (by simp)
    · exact absurd h (by simp)
  | consumerNotify i woken =>
    simp only [step] at h
    split at h
    · next k hk =>
      split at h
      · next j =>
        split at h
        · next m hm =>
          simp only [Option.some.injEq] at h
          subst h
          cases i <;> cases j <;> simp [State.producer, State.consumer] at hk hm <;>
            simp [Act.signals, State.setProducer, State.setConsumer, Pc.notifyingNum, hk, hm]
              <;> omega
        · exact absurd h (by simp)
      · split at h
        · simp only [Option.some.injEq] at h
          subst h
          cases i <;> simp [State.consumer] at hk <;>
            simp [Act.signals, State.setConsumer, Pc.notifyingNum, hk]
          all_goals omega
        · exact absurd h (by simp)
    · exact absurd h (by simp)
  | producerSpurious i =>
    simp only [step] at h
    split at h
    · next m hm =>
      simp only [Option.some.injEq] at h
      subst h
      cases i <;> simp [State.producer] at hm <;>
        simp [Act.signals, State.setProducer, Pc.notifyingNum, hm]
    · exact absurd h (by simp)
  | consumerSpurious i =>
    simp only [step] at h
    split at h
    · next m hm =>
      simp only [Option.some.injEq] at h
      subst h
      cases i <;> simp [State.consumer] at hm <;>
        simp [Act.signals, State.setConsumer, Pc.notifyingNum, hm]
    · exact absurd h (by simp)

theorem signal_exec (cap : Int) (acts : List Act) :
    ∀ σ σ1 : State, exec cap σ acts = some σ1 →
      signalCount .not_empty acts + (σ1.producer0.notifyingNum + σ1.producer1.notifyingNum)
          = pushesCompleted cap σ acts
            + (σ.producer0.notifyingNum + σ.producer1.notifyingNum)
        ∧ signalCount .not_full acts
            + (σ1.consumer0.notifyingNum + σ1.consumer1.notifyingNum)
          = popsCompleted cap σ acts
            + (σ.consumer0.notifyingNum + σ.consumer1.notifyingNum) := by
  induction acts with
  | nil =>
    intro σ σ1 h
    simp only [exec, Option.some.injEq] at h
    subst h
    simp [signalCount, pushesCompleted, popsCompleted]
  | cons a acts ih =>
    intro σ σ1 h
    simp only [exec] at h
    cases hs : step cap σ a with
    | none => simp [hs] at h
    | some σ2 =>
      simp only [hs] at h
      obtain ⟨h1, h2⟩ := ih σ2 σ1 h
      obtain ⟨h3, h4⟩ := signal_step cap σ σ2 a hs
      simp only [pushesCompleted, popsCompleted, hs, Nat.add_zero] at h3 h4 ⊢
      simp only [signalCount]
      constructor <;> omega

theorem producer_stays_blocked (cap : Int) (σ σ1 : State) (i j : Bool) (value : Int)
    (woken : Option Bool) (m : Nat)
    (h : step cap σ (.producerEnter i value) = some σ1
      ∨ step cap σ (.producerNotify i woken) = some σ1)
    (hj : σ.producer j = .waiting m) : σ1.producer j = .waiting m := by
  rcases h with h | h
  · simp only [step] at h
    split at h
    · next k hk =>
      split at h <;> simp only [Option.some.injEq] at h <;> subst h <;> cases i <;> cases j <;>
        simp [State.producer] at hk hj <;>
        simp_all [State.producer, State.setProducer]
    · exact absurd h (by simp)
  · simp only [step] at h
    split at h
    · next k hk =>
      split at h
      · next w =>
        split at h
        · next n hn =>
          simp only [Option.some.injEq] at h
          subst h
          cases i <;> cases j <;> cases w <;>
            simp [State.producer] at hk hj <;>
            simp_all [State.producer, State.setProducer, State.setConsumer]
        · exact absurd h (by simp)
      · split at h
        · simp only [Option.some.injEq] at h
          subst h
          cases i <;> cases j <;>
            simp [State.producer] at hk hj <;>
            simp_all [State.producer, State.setProducer]
        · exact absurd h (by simp)
    · exact absurd h (by simp)

theorem consumer_stays_blocked (cap : Int) (σ σ1 : State) (i j : Bool)
    (woken : Option Bool) (m : Nat)
    (h : step cap σ (.consumerEnter i) = some σ1
      ∨ step cap σ (.consumerNotify i woken) = some σ1)
    (hj : σ.consumer j = .waiting m) : σ1.consumer j = .waiting m := by
  rcases h with h | h
  · simp only [step] at h
    split at h
    · next k hk =>
      split at h <;> simp only [Option.some.injEq] at h <;> subst h <;> cases i <;> cases j <;>
        simp [State.consumer] at hk hj <;>
        simp_all [State.consumer, State.setConsumer]
    · exact absurd h (by simp)
  · simp only [step] at h
    split at h
    · next k hk =>
      split at h
      · next w =>
        split at h
        · next n hn =>
          simp only [Option.some.injEq] at h
          subst h
          cases i <;> cases j <;> cases w <;>
            simp [State.consumer] at hk hj <;>
            simp_all [State.consumer, State.setProducer, State.setConsumer]
        · exact absurd h (by simp)
      · split at h
        · simp only [Option.some.injEq] at h
          subst h
          cases i <;> cases j <;>
            simp [State.consumer] at hk hj <;>
            simp_all [State.consumer, State.setConsumer]
        · exact absurd h (by simp)
    · exact absurd h (by simp)

end circularBufferTest

namespace circularBufferTest

/-- C12, no deadlock under load: in every state the two producers and two
consumers of `circularBufferTest` can reach by any interleaving, spurious
wake-ups included, some thread can take a proper step unless all four have left
their loops; every proper step lowers the variant and a spurious wake-up raises
it by one, so an interleaving makes at most `12 * NUM_ITEMS` proper steps more
than spurious wake-ups; the consumers have received one value per completed
pop; and when no proper step is possible all four threads have finished, the
consumers have received exactly `2 * NUM_ITEMS = 20` values and the buffer is
empty. -/
theorem no_deadlock_under_load (cap : Int) (slots : List Int) (acts : List Act) (σ : State)
    (hcap : 0 < cap) (hlen : (slots.length : Int) = cap)
    (h : exec cap (init slots) acts = some σ) :
    (σ.finished = false → ∃ a σ1, a.proper = true ∧ step cap σ a = some σ1)
      ∧ properCount acts + σ.variant ≤ 12 * NUM_ITEMS + spuriousCount acts
      ∧ σ.consumed.length + σ.remC = 2 * NUM_ITEMS
      ∧ (σ.finished = true →
          σ.consumed.length = 2 * NUM_ITEMS ∧ σ.cb.count = 0 ∧ empty σ.cb = true)
      ∧ ((∀ a, a.proper = true → step cap σ a = none) →
          σ.finished = true ∧ σ.consumed.length = 2 * NUM_ITEMS ∧ empty σ.cb = true) := by
  have hinv : Inv cap σ := inv_exec cap acts (init slots) σ (inv_init cap slots hcap hlen) h
  have hvar := variant_exec cap acts (init slots) σ h
  have hv0 : (init slots).variant = 12 * NUM_ITEMS := by
    simp [init, State.variant, Pc.variant]
    omega
  refine ⟨progress cap σ hinv, by omega, hinv.received, finished_state cap σ hinv, ?_⟩
  intro hstuck
  have hfin : σ.finished = true := by
    cases hf : σ.finished with
    | true => rfl
    | false =>
      obtain ⟨a, σ1, ha, hs⟩ := progress cap σ hinv hf
      rw [hstuck a ha] at hs
      exact absurd hs (by simp)
  obtain ⟨h1, _, h3⟩ := finished_state cap σ hinv hfin
  exact ⟨hfin, h1, h3⟩

/-- C12 at the source's capacity: after the first 21 steps of `loadSchedule`
both producers are blocked on the full buffer and a proper step exists; the
whole schedule, 96 proper steps and one spurious wake-up, ends with all four
threads finished, 20 values received and the buffer empty. -/
theorem no_deadlock_under_load_witness :
    exec BUFFER_SIZE (init [0, 0, 0, 0, 0]) (loadSchedule.take 21)
        = some { cb := ⟨[104, 100, 101, 102, 103], 1, 1, 5⟩
                 producer0 := .waiting 4, producer1 := .waiting 8
                 consumer0 := .ready 10, consumer1 := .ready 9
                 consumed := [200] }
      ∧ (∃ a σ1, a.proper = true
          ∧ step BUFFER_SIZE
              { cb := ⟨[104, 100, 101, 102, 103], 1, 1, 5⟩
                producer0 := .waiting 4, producer1 := .waiting 8
                consumer0 := .ready 10, consumer1 := .ready 9
                consumed := [200] } a = some σ1)
      ∧ exec BUFFER_SIZE (init [0, 0, 0, 0, 0]) loadSchedule
        = some { cb := ⟨[209, 106, 107, 108, 109], 0, 0, 0⟩
                 producer0 := .ready 0, producer1 := .ready 0
                 consumer0 := .ready 0, consumer1 := .ready 0
                 consumed := [200, 100, 101, 102, 103, 104, 201, 202, 203, 204, 205, 105,
                   206, 207, 208, 209, 106, 107, 108, 109] }
      ∧ properCount loadSchedule = 96 ∧ spuriousCount loadSchedule = 1
      ∧ ([200, 100, 101, 102, 103, 104, 201, 202, 203, 204, 205, 105, 206, 207, 208, 209,
            106, 107, 108, 109] : List Int).length = 2 * NUM_ITEMS
      ∧ empty ⟨[209, 106, 107, 108, 109], 0, 0, 0⟩ = true :=
  ⟨by decide,
   (no_deadlock_under_load BUFFER_SIZE [0, 0, 0, 0, 0] (loadSchedule.take 21)
      { cb := ⟨[104, 100, 101, 102, 103], 1, 1, 5⟩
        producer0 := .waiting 4, producer1 := .waiting 8
        consumer0 := .ready 10, consumer1 := .ready 9
        consumed := [200] } (by decide) (by decide) (by decide)).1 (by decide),
   by decide, by decide, by decide,
   ((no_deadlock_under_load BUFFER_SIZE [0, 0, 0, 0, 0] loadSchedule
      { cb := ⟨[209, 106, 107, 108, 109], 0, 0, 0⟩
        producer0 := .ready 0, producer1 := .ready 0
        consumer0 := .ready 0, consumer1 := .ready 0
        consumed := [200, 100, 101, 102, 103, 104, 201, 202, 203, 204, 205, 105,
          206, 207, 208, 209, 106, 107, 108, 109] }
      (by decide) (by decide) (by decide)).2.2.2.1 (by decide)).1,
   ((no_deadlock_under_load BUFFER_SIZE [0, 0, 0, 0, 0] loadSchedule
      { cb := ⟨[209, 106, 107, 108, 109], 0, 0, 0⟩
        producer0 := .ready 0, producer1 := .ready 0
        consumer0 := .ready 0, consumer1 := .ready 0
        consumed := [200, 100, 101, 102, 103, 104, 201, 202, 203, 204, 205, 105,
          206, 207, 208, 209, 106, 107, 108, 109] }
      (by decide) (by decide) (by decide)).2.2.2.1 (by decide)).2.2⟩

/-- C16, complementary signalling: along every interleaving of the test, the
`notify_one` calls made on `not_empty` are as many as the completed pushes, less
the producers that have updated the buffer and are about to notify, and those
on `not_full` as many as the completed pops, less such consumers; a producer
step makes no `notify_one` on `not_full` and a consumer step none on
`not_empty`; a producer that has completed a push cannot start its next call
before its `notify_one`, likewise a consumer; and no step of a producer changes
where a blocked producer is, no step of a consumer where a blocked consumer
is. -/
theorem complementary_signalling (cap : Int) (slots : List Int) (acts : List Act) (σ : State)
    (h : exec cap (init slots) acts = some σ) :
    signalCount .not_empty acts + (σ.producer0.notifyingNum + σ.producer1.notifyingNum)
        = pushesCompleted cap (init slots) acts
      ∧ signalCount .not_full acts + (σ.consumer0.notifyingNum + σ.consumer1.notifyingNum)
        = popsCompleted cap (init slots) acts
      ∧ (∀ (i : Bool) (value : Int) (woken : Option Bool),
          (Act.producerEnter i value).signals = []
            ∧ (Act.producerNotify i woken).signals = [.not_empty]
            ∧ Cond.not_full ∉ (Act.producerNotify i woken).signals)
      ∧ (∀ (i : Bool) (woken : Option Bool),
          (Act.consumerEnter i).signals = []
            ∧ (Act.consumerNotify i woken).signals = [.not_full]
            ∧ Cond.not_empty ∉ (Act.consumerNotify i woken).signals)
      ∧ (∀ (i : Bool) (k : Nat) (value : Int), σ.producer i = .notifying k →
          step cap σ (.producerEnter i value) = none)
      ∧ (∀ (i : Bool) (k : Nat), σ.consumer i = .notifying k →
          step cap σ (.consumerEnter i) = none)
      ∧ (∀ (i j : Bool) (value : Int) (woken : Option Bool) (m : Nat) (σ1 : State),
          step cap σ (.producerEnter i value) = some σ1
            ∨ step cap σ (.producerNotify i woken) = some σ1 →
          σ.producer j = .waiting m → σ1.producer j = .waiting m)
      ∧ (∀ (i j : Bool) (woken : Option Bool) (m : Nat) (σ1 : State),
          step cap σ (.consumerEnter i) = some σ1
            ∨ step cap σ (.consumerNotify i woken) = some σ1 →
          σ.consumer j = .waiting m → σ1.consumer j = .waiting m) := by
  obtain ⟨h1, h2⟩ := signal_exec cap acts (init slots) σ h
  have hi : (init slots).producer0.notifyingNum + (init slots).producer1.notifyingNum = 0 := by
    simp [init, Pc.notifyingNum]
  have hj : (init slots).consumer0.notifyingNum + (init slots).consumer1.notifyingNum = 0 := by
    simp [init, Pc.notifyingNum]
  rw [hi] at h1
  rw [hj] at h2
  refine ⟨h1, h2, ?_, ?_, ?_, ?_, ?_, ?_⟩
  · intro i value woken
    exact ⟨rfl, rfl, by simp [Act.signals]⟩
  · intro i woken
    exact ⟨rfl, rfl, by simp [Act.signals]⟩
  · intro i k value hk
    simp [step, hk]
  · intro i k hk
    simp [step, hk]
  · intro i j value woken m σ1 hs hw
    exact producer_stays_blocked cap σ σ1 i j value woken m hs hw
  · intro i j woken m σ1 hs hw
    exact consumer_stays_blocked cap σ σ1 i j woken m hs hw

/-- C16 at the source's capacity: over the whole of `loadSchedule` 20 pushes and
20 pops complete and `notify_one` is called 20 times on each condition
variable; and after its first 23 steps, when producer 0 is blocked on
`not_full`, producer 1 completes a push and producer 0 stays blocked. -/
theorem complementary_signalling_witness :
    exec BUFFER_SIZE (init [0, 0, 0, 0, 0]) loadSchedule
        = some { cb := ⟨[209, 106, 107, 108, 109], 0, 0, 0⟩
                 producer0 := .ready 0, producer1 := .ready 0
                 consumer0 := .ready 0, consumer1 := .ready 0
                 consumed := [200, 100, 101, 102, 103, 104, 201, 202, 203, 204, 205, 105,
                   206, 207, 208, 209, 106, 107, 108, 109] }
      ∧ signalCount .not_empty loadSchedule = 20
      ∧ signalCount .not_full loadSchedule = 20
      ∧ signalCount .not_empty loadSchedule
          + ((Pc.ready 0).notifyingNum + (Pc.ready 0).notifyingNum)
        = pushesCompleted BUFFER_SIZE (init [0, 0, 0, 0, 0]) loadSchedule
      ∧ signalCount .not_full loadSchedule
          + ((Pc.ready 0).notifyingNum + (Pc.ready 0).notifyingNum)
        = popsCompleted BUFFER_SIZE (init [0, 0, 0, 0, 0]) loadSchedule
      ∧ exec BUFFER_SIZE (init [0, 0, 0, 0, 0]) (loadSchedule.take 23)
        = some { cb := ⟨[104, 100, 101, 102, 103], 1, 2, 4⟩
                 producer0 := .waiting 4, producer1 := .ready 9
                 consumer0 := .ready 9, consumer1 := .ready 9
                 consumed := [200, 100] }
      ∧ step BUFFER_SIZE
          { cb := ⟨[104, 100, 101, 102, 103], 1, 2, 4⟩
            producer0 := .waiting 4, producer1 := .ready 9
            consumer0 := .ready 9, consumer1 := .ready 9
            consumed := [200, 100] } (.producerEnter true 201)
        = some { cb := ⟨[104, 201, 101, 102, 103], 2, 2, 5⟩
                 producer0 := .waiting 4, producer1 := .notifying 8
                 consumer0 := .ready 9, consumer1 := .ready 9
                 consumed := [200, 100] }
      ∧ State.producer
          { cb := ⟨[104, 201, 101, 102, 103], 2, 2, 5⟩
            producer0 := .waiting 4, producer1 := .notifying 8
            consumer0 := .ready 9, consumer1 := .ready 9
            consumed := [200, 100] } false = .waiting 4 :=
  ⟨by decide, by decide, by decide,
   (complementary_signalling BUFFER_SIZE [0, 0, 0, 0, 0] loadSchedule
      { cb := ⟨[209, 106, 107, 108, 109], 0, 0, 0⟩
        producer0 := .ready 0, producer1 := .ready 0
        consumer0 := .ready 0, consumer1 := .ready 0
        consumed := [200, 100, 101, 102, 103, 104, 201, 202, 203, 204, 205, 105,
          206, 207, 208, 209, 106, 107, 108, 109] } (by decide)).1,
   (complementary_signalling BUFFER_SIZE [0, 0, 0, 0, 0] loadSchedule
      { cb := ⟨[209, 106, 107, 108, 109], 0, 0, 0⟩
        producer0 := .ready 0, producer1 := .ready 0
        consumer0 := .ready 0, consumer1 := .ready 0
        consumed := [200, 100, 101, 102, 103, 104, 201, 202, 203, 204, 205, 105,
          206, 207, 208, 209, 106, 107, 108, 109] } (by decide)).2.1,
   by decide, by decide,
   (complementary_signalling BUFFER_SIZE [0, 0, 0, 0, 0] (loadSchedule.take 23)
      { cb := ⟨[104, 100, 101, 102, 103], 1, 2, 4⟩
        producer0 := .waiting 4, producer1 := .ready 9
        consumer0 := .ready 9, consumer1 := .ready 9
        consumed := [200, 100] } (by decide)).2.2.2.2.2.2.1 true false 201 none 4
      { cb := ⟨[104, 201, 101, 102, 103], 2, 2, 5⟩
        producer0 := .waiting 4, producer1 := .notifying 8
        consumer0 := .ready 9, consumer1 := .ready 9
        consumed := [200, 100] } (Or.inl (by decide)) (by decide)⟩

end circularBufferTest
